import Mathlib

/-!
Verification of the CF16-correction reconciliation pipeline
(`modules/create_preview_data.py`, `modules/vgo_processor.py`,
`src/helpers.py`).  Spreadsheet cell values are modelled by `Value`
(absent cell, text, or number), monetary amounts by `ℚ` (the Python
code uses IEEE doubles; all the sums proved here are exact, hence hold
a fortiori within the 1e-6 tolerance the specification allows), and
Python dictionaries by insertion-ordered association lists.  Python's
`list.sort` / `sorted` (stable sorts) are modelled by
`List.insertionSort`, which is stable with identical tie behaviour.
-/

/-- A spreadsheet cell value: absent (`None` in openpyxl), a text, or a
number.  Python renders numbers to text with `str`; that rendering is
abstracted by `pyStr` below (no claim depends on the exact digits). -/
inductive Value where
  | none
  | str (s : String)
  | num (q : ℚ)
deriving DecidableEq

/-- Model of `safe_str` (helpers.py): `None` becomes `""`, a string is
itself, a number is rendered to text. -/
def pyStr : Value → String
  | Value.none => ""
  | Value.str s => s
  | Value.num q => if q.den = 1 then toString q.num else toString q.num ++ "/" ++ toString q.den

/-- Character-level test used to model Python's `str.startswith("=")`. -/
def strStartsWithChar (s : String) (c : Char) : Bool :=
  match s.toList with
  | [] => false
  | c0 :: _ => c0 == c

/-- Whether a cell value is a formula (a string starting with "="),
as tested by the Python code via `str(value).startswith("=")`. -/
def isFormulaV : Value → Bool
  | Value.str s => strStartsWithChar s '='
  | _ => false

/-- Whitespace test for modelling Python's `str.strip()`. -/
def isSpaceChar (c : Char) : Bool := c.isWhitespace

/-- Model of Python's `str.strip()` on a character list. -/
def pyStripL (cs : List Char) : List Char :=
  ((cs.dropWhile isSpaceChar).reverse.dropWhile isSpaceChar).reverse

/-- Decimal digits to a natural number. -/
def digitsToNat (cs : List Char) : Nat :=
  cs.foldl (fun a c => a * 10 + (c.toNat - 48)) 0

/-- Exponent part of a Python float literal (after `e`/`E`). -/
def parseExpPart (sgn mant : ℚ) (cs : List Char) : Option ℚ :=
  let p := match cs with
    | '+' :: t => (true, t)
    | '-' :: t => (false, t)
    | t => (true, t)
  let ds := p.2.takeWhile Char.isDigit
  if ds.length = 0 ∨ p.2.dropWhile Char.isDigit ≠ [] then Option.none
  else Option.some (sgn * mant * (if p.1 then (10 : ℚ) ^ digitsToNat ds else ((10 : ℚ) ^ digitsToNat ds)⁻¹))

/-- Core of Python's `float(string)` parser: optional sign, decimal
mantissa, optional exponent (`inf`/`nan`/underscores are not modelled;
no claim exercises them). -/
def parseFloatCore (cs0 : List Char) : Option ℚ :=
  let p := match cs0 with
    | '+' :: t => ((1 : ℚ), t)
    | '-' :: t => ((-1 : ℚ), t)
    | t => ((1 : ℚ), t)
  let sgn := p.1
  let cs := p.2
  let intPart := cs.takeWhile Char.isDigit
  let cs1 := cs.dropWhile Char.isDigit
  let q := match cs1 with
    | '.' :: t => (t.takeWhile Char.isDigit, t.dropWhile Char.isDigit)
    | t => (([] : List Char), t)
  let fracPart := q.1
  let cs2 := q.2
  if intPart.length = 0 ∧ fracPart.length = 0 then Option.none
  else
    let mant : ℚ := (digitsToNat intPart : ℚ) + (digitsToNat fracPart : ℚ) / (10 : ℚ) ^ fracPart.length
    match cs2 with
    | [] => Option.some (sgn * mant)
    | 'e' :: t => parseExpPart sgn mant t
    | 'E' :: t => parseExpPart sgn mant t
    | _ => Option.none

/-- Model of Python's `float(s)` for strings (whitespace stripped). -/
def parseFloat? (s : String) : Option ℚ := parseFloatCore (pyStripL s.toList)

/-- Model of `safe_float` (helpers.py): `None` gives the default, a
number is itself, a string is parsed or defaults. -/
def safeFloatV (v : Value) (d : ℚ) : ℚ :=
  match v with
  | Value.none => d
  | Value.num q => q
  | Value.str s => (parseFloat? s).getD d

/-- Row cell access `row[i]`; the Python rows handled here are built
with one entry per sheet column, so the out-of-range default `None` is
never reached on real data. -/
def getV (row : List Value) (i : Nat) : Value := row.getD i Value.none

/-- Pair each list element with its (spreadsheet row) index, starting
at `start`. -/
def withIdx {α : Type} : Nat → List α → List (Nat × α)
  | _, [] => []
  | n, a :: t => (n, a) :: withIdx (n + 1) t

/-- First-match lookup with default, as Python's `dict.get(k, d)`. -/
def lookupD {K V : Type} [DecidableEq K] (l : List (K × V)) (k : K) (d : V) : V :=
  match l with
  | [] => d
  | p :: rest => if p.1 = k then p.2 else lookupD rest k d

/-- Add `v` to the entry for `k`, appending a fresh entry at the end if
absent: the behaviour of `dict[key]["sum"] += v` with insertion order. -/
def upsertAdd {K : Type} [DecidableEq K] (k : K) (v : ℚ) : List (K × ℚ) → List (K × ℚ)
  | [] => [(k, v)]
  | p :: rest => if p.1 = k then (p.1, p.2 + v) :: rest else p :: upsertAdd k v rest

/-- Group the rows by `key` and sum `val` per group, keeping first-seen
key order — the pivot-emulation idiom used throughout the pipeline. -/
def groupSum {α K : Type} [DecidableEq K] (key : α → K) (val : α → ℚ) (rows : List α) : List (K × ℚ) :=
  rows.foldl (fun acc r => upsertAdd (key r) (val r) acc) []

/-- Python's banker's rounding `round(q)`: nearest integer, ties to the
even integer. -/
def pyRound (q : ℚ) : ℤ :=
  if q - (⌊q⌋ : ℚ) < 1 / 2 then ⌊q⌋
  else if 1 / 2 < q - (⌊q⌋ : ℚ) then ⌊q⌋ + 1
  else if 2 ∣ ⌊q⌋ then ⌊q⌋ else ⌊q⌋ + 1

/-!  Pivot aggregation (`CreatePreviewDataProcessor._create_pivot_data`).
The input rows are the filtered МАРЖА rows as lists of cell values; the
column positions of the three key columns and the amount column are the
indices located in the header row. -/

/-- Key of one input row for `_create_pivot_data`: string-normalized
(supplier code, cost-center-or-contract, buyer unit). -/
def pivotKeyOf (beSupIdx cfoIdx beBuyIdx : Nat) (row : List Value) : String × String × String :=
  (pyStr (getV row beSupIdx), pyStr (getV row cfoIdx), pyStr (getV row beBuyIdx))

/-- Model of `_create_pivot_data`: group the data rows by the composite
key and accumulate the numeric-coerced amount column (default 0). -/
def createPivotData (beSupIdx cfoIdx beBuyIdx sumIdx : Nat) (rows : List (List Value)) :
    List ((String × String × String) × ℚ) :=
  groupSum (pivotKeyOf beSupIdx cfoIdx beBuyIdx) (fun row => safeFloatV (getV row sumIdx) 0) rows

/-!  Cost-center validation (`_validate_cfo` and step 8 of `process`). -/

/-- Result record of block-1 processing (`ProcessingResult`), reduced to
the fields the claims mention. -/
structure ProcResult where
  success : Bool
  errors : List String
deriving DecidableEq

/-- Model of `_validate_cfo`: if the buyer cost-center column was
located, every data-row value whose string form is shorter than 3
characters is highlighted; the check passes iff none is short (and
trivially passes when the column was not located). Returns
(passed, highlighted row offsets). -/
def validateCfo (located : Bool) (values : List Value) : Bool × List Nat :=
  if located then
    let shorts := (withIdx 0 values).filter (fun p => decide ((pyStr p.2).length < 3))
    (shorts.isEmpty, shorts.map Prod.fst)
  else (true, [])

/-- Error message appended by `process` when `_validate_cfo` fails. -/
def cfoErrorMsg : String := "Есть ЦФО с длиной меньше 3 символов"

/-- Model of the validation gate in `process` (create_preview_data.py
lines 236-239): on failure the run returns immediately with
`success = False` and the single error message, discarding whatever the
rest of the run (`rest`) would have produced. -/
def processCfoGate (located : Bool) (values : List Value) (rest : ProcResult) : ProcResult :=
  if (validateCfo located values).1 then rest
  else { success := false, errors := [cfoErrorMsg] }

/-!  First-level summary table (`_write_summary_table`). -/

/-- One pivot record as stored in the `pivot_data` dictionaries:
supplier unit, cost-center (or contract on T2 sheets), buyer unit, and
the aggregated amount. -/
structure PivotVal where
  be_supplier : String
  cfo : String
  be_buyer : String
  sum : ℚ
deriving DecidableEq

/-- Model of `_write_summary_table`: the data rows written to columns
A–D (descending by amount when `sortDesc`, Python's stable `sorted`),
and the trailing "Общий итог" amount, written only when at least one
data row was written. -/
def writeSummaryTable (pivot : List PivotVal) (sortDesc : Bool) : List PivotVal × Option ℚ :=
  let items := if sortDesc then pivot.insertionSort (fun a b => b.sum ≤ a.sum) else pivot
  (items, if items.isEmpty then Option.none else Option.some ((items.map PivotVal.sum).sum))

/-!  Output blocks of the 8 calculation-sheet variants
(`_write_pivot_to_sheet`, `_create_mapping_table_opex`,
`VgoProcessor.create_vgo_second_block`, `VgoProcessor.create_vgo_t2_blocks`).
A block is modelled by its "Check" label, the amount-column cells it
writes (spreadsheet row index paired with the amount), and its check
cell, which the code writes either as a literal `=SUM(...)` formula over
one column (`sumFormula col firstRow lastRow`) or as a Python-computed
numeric constant (`const`).  Columns other than the amount column carry
no claim content and are modelled only where a claim refers to them. -/

/-- A written check cell: a live `=SUM($X{r1}:$X{r2})` spreadsheet
formula over column `col`, or a precomputed numeric constant. -/
inductive CheckCell where
  | const (q : ℚ)
  | sumFormula (col r1 r2 : Nat)
deriving DecidableEq

/-- One output block: "Check" label text, the amount cells written
(row index, amount), and the check cell. -/
structure Block where
  label : String
  rows : List (Nat × ℚ)
  check : CheckCell
deriving DecidableEq

/-- The numeric value a block's check cell evaluates to: a constant is
itself; a `SUM` formula sums the block's amount cells lying in its row
range (the code always places the ranges of distinct blocks on disjoint
row intervals of the shared amount column). -/
def checkValue (b : Block) : ℚ :=
  match b.check with
  | CheckCell.const q => q
  | CheckCell.sumFormula _ r1 r2 =>
      ((b.rows.filter (fun p => decide (r1 ≤ p.1 ∧ p.1 ≤ r2))).map Prod.snd).sum

/-- Sum of the amounts actually written in a block's data rows. -/
def sumAmounts (b : Block) : ℚ := (b.rows.map Prod.snd).sum

/-- Whether a check cell is a live spreadsheet formula (as opposed to a
precomputed numeric constant). -/
def isLiveFormula : CheckCell → Bool
  | CheckCell.sumFormula _ _ _ => true
  | CheckCell.const _ => false

/-- Budget-variant first mapping block (`_write_pivot_to_sheet`, budget
branch): one row at sheet rows 6.. per pivot record that is not
"Общий итог", amount `-sum * 100 / 100`; the check is the formula
`=SUM($L6:$L{last_data_row})` (column L = 12). -/
def budgetFirstRows (pivot : List PivotVal) : List (Nat × ℚ) :=
  withIdx 6 ((pivot.filter (fun v => !(v.be_supplier == "Общий итог"))).map
    (fun v => -v.sum * 100 / 100))

/-- Budget-variant first block with its check formula. -/
def budgetFirstBlock (pivot : List PivotVal) : Block :=
  { label := "Check"
    rows := budgetFirstRows pivot
    check := CheckCell.sumFormula 12 6 (5 + (budgetFirstRows pivot).length) }

/-!  Budget OPEX mapping block (`_create_mapping_table_opex`). -/

/-- One record of the "Информация о ЦФО и статье из бюджета OPEX"
section as read by `_get_opex_mapping_data` (percent already coerced
with default 100). -/
structure OpexMapItem where
  be_supplier : String
  cfo_oper : String
  stat_oper : String
  percent : ℚ
deriving DecidableEq

/-- Percent normalization of the budget OPEX block: Python
`round(percent)` and a rounded 0 replaced by 1. -/
def budgetPercentWeight (raw : ℚ) : ℤ :=
  if pyRound raw = 0 then 1 else pyRound raw

/-- Aggregated pivot amounts per (supplier unit, buyer unit) pair
(`sum_by_key` in `_create_mapping_table_opex`), first-seen order. -/
def sumByKey (pivot : List PivotVal) : List ((String × String) × ℚ) :=
  groupSum (fun v => (v.be_supplier, v.be_buyer)) PivotVal.sum pivot

/-- One written row of the budget OPEX mapping block. -/
structure OpexRow where
  be_cfo : String
  be_supplier : String
  cfo_oper : String
  stat_oper : String
  percent : ℤ
  sum : ℚ
  sum_acc : ℚ
  be_buyer : String
deriving DecidableEq

/-- Row built for pair `p` (with its aggregated sum) and mapping record
`m`: amount = pair sum × normalized percent / 100. -/
def mkBudgetOpexRow (p : (String × String) × ℚ) (m : OpexMapItem) : OpexRow :=
  let w := budgetPercentWeight m.percent
  { be_cfo := p.1.1 ++ m.cfo_oper
    be_supplier := p.1.1
    cfo_oper := m.cfo_oper
    stat_oper := m.stat_oper
    percent := w
    sum := p.2 * (w : ℚ) / 100
    sum_acc := p.2
    be_buyer := p.1.2 }

/-- Rows generated for one (supplier, buyer) pair: one row per OPEX
mapping record sharing the supplier code, except records whose
operational cost-center is empty, which the code skips. -/
def budgetOpexRowsFor (mapping : List OpexMapItem) (p : (String × String) × ℚ) : List OpexRow :=
  ((mapping.filter (fun m => m.be_supplier == p.1.1)).filter
      (fun m => !(m.cfo_oper == ""))).map (mkBudgetOpexRow p)

/-- All rows of the budget OPEX block before sorting: one batch per
distinct (supplier, buyer) pair, skipping "Общий итог". -/
def budgetOpexRowsRaw (pivot : List PivotVal) (mapping : List OpexMapItem) : List OpexRow :=
  (sumByKey pivot).flatMap (fun p =>
    if p.1.1 = "Общий итог" then [] else budgetOpexRowsFor mapping p)

/-- The four sequential stable sorts of `_create_mapping_table_opex`:
article asc, then cost-center asc, then buyer asc, then supplier desc
(Python's stable `list.sort`, modelled by the stable
`List.insertionSort`). -/
def budgetOpexSorted (pivot : List PivotVal) (mapping : List OpexMapItem) : List OpexRow :=
  ((((budgetOpexRowsRaw pivot mapping).insertionSort
        (fun a b => a.stat_oper ≤ b.stat_oper)).insertionSort
      (fun a b => a.cfo_oper ≤ b.cfo_oper)).insertionSort
    (fun a b => a.be_buyer ≤ b.be_buyer)).insertionSort
    (fun a b => b.be_supplier ≤ a.be_supplier)

/-- Budget OPEX block: data rows from `currentRow + 1`, check formula
`=SUM($L{currentRow+1}:$L{last_data_row})`. -/
def budgetOpexBlock (currentRow : Nat) (pivot : List PivotVal) (mapping : List OpexMapItem) :
    Block :=
  { label := "Check"
    rows := withIdx (currentRow + 1) ((budgetOpexSorted pivot mapping).map OpexRow.sum)
    check := CheckCell.sumFormula 12 (currentRow + 1)
      (currentRow + (budgetOpexSorted pivot mapping).length) }

/-!  VGO (non-T2) CAPEX and OPEX blocks
(`VgoProcessor.create_vgo_second_block`). -/

/-- Pivot records with the "Общий итог" pseudo-row removed. -/
def filteredPivot (pivot : List PivotVal) : List PivotVal :=
  pivot.filter (fun v => !(v.be_supplier == "Общий итог"))

/-- Total of the filtered pivot amounts (`total_sum`). -/
def pivotTotal (pivot : List PivotVal) : ℚ :=
  ((filteredPivot pivot).map PivotVal.sum).sum

/-- CAPEX amounts: sign-inverted pivot amounts at 100 %. -/
def vgoCapexRows (pivot : List PivotVal) : List ℚ :=
  (filteredPivot pivot).map (fun v => -v.sum * 100 / 100)

/-- VGO CAPEX block: data rows start 6 rows below the end of the first
block; the check cell is the Python-computed constant `-total_sum`. -/
def vgoCapexBlock (endFirst : Nat) (pivot : List PivotVal) : Block :=
  { label := "Check"
    rows := withIdx (endFirst + 6) (vgoCapexRows pivot)
    check := CheckCell.const (-(pivotTotal pivot)) }

/-- Key of a VGO mapping row: the first cell, or — when that cell is a
formula — the concatenation of the supplier and cost-center cells. -/
def vgoKeyOf (row : List Value) : String :=
  let k := pyStr (getV row 0)
  if strStartsWithChar k '=' then pyStr (getV row 1) ++ pyStr (getV row 2) else k

/-- Duplicate-detection identity of a VGO mapping row (columns BE,
CFO KV, CFO oper, article oper, percent). -/
def vgoRowId (row : List Value) : String × String × String × String × String :=
  (pyStr (getV row 1), pyStr (getV row 2), pyStr (getV row 3), pyStr (getV row 5),
    pyStr (getV row 7))

/-- Mapping-dictionary construction of `create_vgo_second_block`:
skip short rows, header keys and empty keys, and full duplicates
(tracked by `seen`); keeps (key, row) pairs in source order. -/
def vgoMapEntriesAux :
    List (List Value) → List (String × String × String × String × String) →
      List (String × List Value)
  | [], _ => []
  | r :: rest, seen =>
    if r.length < 2 then vgoMapEntriesAux rest seen
    else
      let k := vgoKeyOf r
      if k = "" ∨ k = "БЕ + ЦФО" ∨ k = "БЕ поставщика" then vgoMapEntriesAux rest seen
      else if vgoRowId r ∈ seen then vgoMapEntriesAux rest seen
      else (k, r) :: vgoMapEntriesAux rest (vgoRowId r :: seen)

/-- Deduplicated, keyed VGO mapping entries. -/
def vgoMappingEntries (rows : List (List Value)) : List (String × List Value) :=
  vgoMapEntriesAux rows []

/-- Precomputed per-(supplier, cost-center) expense totals
(`expense_sums`), over mapping rows of width at least 7. -/
def expenseSums (rows : List (List Value)) : List ((String × String) × ℚ) :=
  groupSum (fun r => (pyStr (getV r 1), pyStr (getV r 2)))
    (fun r => safeFloatV (getV r 6) 0)
    (rows.filter (fun r => decide (7 ≤ r.length)))

/-- One written row of the VGO OPEX block. -/
structure VgoOpexRow where
  be_cfo : String
  be_supplier : String
  cfo : String
  cfo_oper : String
  stat_oper : String
  percent_val : ℚ
  calculated_sum : ℚ
  base_sum : ℚ
  be_buyer : String
deriving DecidableEq

/-- Percent of a VGO OPEX mapping row: a SUMIFS-style formula cell is
replaced by expense×100 / group total (or 100), otherwise the raw cell
is numerically coerced with default 100.  The source reads the cell via
`safe_float(safe_str(cell), 100)`; since Python's float/str round-trip
is exact this equals coercing the cell value directly. -/
def vgoOpexPercent (exps : List ((String × String) × ℚ)) (row : List Value) : ℚ :=
  if isFormulaV (getV row 7) then
    let expense := safeFloatV (getV row 6) 0
    let sumExpense := lookupD exps (pyStr (getV row 1), pyStr (getV row 2)) 0
    if expense ≠ 0 ∧ sumExpense ≠ 0 then expense * 100 / sumExpense else 100
  else safeFloatV (getV row 7) 100

/-- Operational article of a VGO OPEX mapping row: a VLOOKUP-style
formula cell is resolved through the article reference dictionary keyed
by the "Статья PL" cell; otherwise the cell text is kept. -/
def vgoOpexStatOper (articleDict : List (String × String)) (row : List Value) : String :=
  let stat_oper := pyStr (getV row 5)
  let stat_pl := pyStr (getV row 4)
  if strStartsWithChar stat_oper '=' then
    if stat_pl ≠ "" ∧ ¬ strStartsWithChar stat_pl '=' then lookupD articleDict stat_pl ""
    else ""
  else stat_oper

/-- One VGO OPEX row candidate; skipped (`none`) when the operational
cost-center or article is empty, a formula, or unresolved. -/
def vgoOpexRowFor (articleDict : List (String × String)) (exps : List ((String × String) × ℚ))
    (pv : PivotVal) (row : List Value) : Option VgoOpexRow :=
  let cfo_oper := pyStr (getV row 3)
  let stat_oper := vgoOpexStatOper articleDict row
  let percent_val := vgoOpexPercent exps row
  if cfo_oper = "" ∨ stat_oper = "" ∨ strStartsWithChar cfo_oper '=' = true
      ∨ stat_oper = "Статья не найдена" then Option.none
  else
    Option.some
      { be_cfo := pv.be_supplier ++ pv.cfo
        be_supplier := pv.be_supplier
        cfo := pv.cfo
        cfo_oper := cfo_oper
        stat_oper := stat_oper
        percent_val := percent_val
        calculated_sum := pv.sum * percent_val / 100
        base_sum := pv.sum
        be_buyer := pv.be_buyer }

/-- All VGO OPEX rows before sorting: for every filtered pivot record,
one candidate per deduplicated mapping entry whose key equals the
record's supplier++cost-center concatenation. -/
def vgoOpexRowsRaw (articleDict : List (String × String)) (vgoMapping : List (List Value))
    (pivot : List PivotVal) : List VgoOpexRow :=
  (filteredPivot pivot).flatMap (fun pv =>
    ((vgoMappingEntries vgoMapping).filter
        (fun e => e.1 == pv.be_supplier ++ pv.cfo)).filterMap
      (fun e => vgoOpexRowFor articleDict (expenseSums vgoMapping) pv e.2))

/-- VGO OPEX rows sorted by descending absolute base amount (stable). -/
def vgoOpexSorted (articleDict : List (String × String)) (vgoMapping : List (List Value))
    (pivot : List PivotVal) : List VgoOpexRow :=
  (vgoOpexRowsRaw articleDict vgoMapping pivot).insertionSort
    (fun a b => -|a.base_sum| ≤ -|b.base_sum|)

/-- The check value the code recomputes by re-reading the written OPEX
amount cells, skipping falsy (zero) cells. -/
def vgoOpexSumRecomputed (rows : List VgoOpexRow) : ℚ :=
  rows.foldl (fun acc r => if r.calculated_sum ≠ 0 then acc + r.calculated_sum else acc) 0

/-- VGO OPEX block: rows below the OPEX header; check cell is the
Python-computed constant `opex_sum`. -/
def vgoOpexBlock (endFirst : Nat) (articleDict : List (String × String))
    (vgoMapping : List (List Value)) (pivot : List PivotVal) : Block :=
  { label := "Check"
    rows := withIdx (endFirst + 5 + (vgoCapexRows pivot).length + 5 + 1)
      ((vgoOpexSorted articleDict vgoMapping pivot).map VgoOpexRow.calculated_sum)
    check := CheckCell.const (vgoOpexSumRecomputed (vgoOpexSorted articleDict vgoMapping pivot)) }

/-!  T2 CAPEX and OPEX blocks (`VgoProcessor.create_vgo_t2_blocks`). -/

/-- T2 CAPEX block: one row per filtered pivot record with amount
`-sum * 100 / 100`; the check before it is the constant `-total_sum`. -/
def t2CapexBlock (endFirst : Nat) (pivot : List PivotVal) : Block :=
  { label := "Check"
    rows := withIdx (endFirst + 6) ((filteredPivot pivot).map (fun v => -v.sum * 100 / 100))
    check := CheckCell.const (-(pivotTotal pivot)) }

/-- T2 mapping entries keyed by supplier++contract (columns 1 and 3),
skipping short rows and rows with an empty supplier or contract. -/
def t2MappingEntries (rows : List (List Value)) : List (String × List Value) :=
  rows.filterMap (fun r =>
    if r.length < 4 then Option.none
    else
      let be := pyStr (getV r 1)
      let contract := pyStr (getV r 3)
      if be = "" ∨ contract = "" then Option.none
      else Option.some (be ++ contract, r))

/-- One written row of the T2 OPEX block. -/
structure T2OpexRow where
  be_dog : String
  be_supplier : String
  contract : String
  cfo_oper : String
  stat_oper : String
  percent_val : ℚ
  calculated_sum : ℚ
  base_sum : ℚ
  be_buyer : String
deriving DecidableEq

/-- One T2 OPEX row candidate: raw percent coerced with default 100 (no
rounding), skipped when the operational cost-center is empty. -/
def t2OpexRowFor (pv : PivotVal) (row : List Value) : Option T2OpexRow :=
  let cfo_oper := pyStr (getV row 2)
  let stat_oper := pyStr (getV row 4)
  let percent_val := safeFloatV (getV row 6) 100
  if cfo_oper = "" then Option.none
  else
    Option.some
      { be_dog := pv.be_supplier ++ pv.cfo
        be_supplier := pv.be_supplier
        contract := pv.cfo
        cfo_oper := cfo_oper
        stat_oper := stat_oper
        percent_val := percent_val
        calculated_sum := pv.sum * percent_val / 100
        base_sum := pv.sum
        be_buyer := pv.be_buyer }

/-- All T2 OPEX rows: per filtered pivot record, one candidate per
mapping entry keyed by its supplier++contract concatenation. -/
def t2OpexRows (vgoMapping : List (List Value)) (pivot : List PivotVal) : List T2OpexRow :=
  (filteredPivot pivot).flatMap (fun pv =>
    ((t2MappingEntries vgoMapping).filter
        (fun e => e.1 == pv.be_supplier ++ pv.cfo)).filterMap
      (fun e => t2OpexRowFor pv e.2))

/-- T2 OPEX block: the check written two rows above its header is the
Python-computed constant `total_sum` — the full filtered pivot total,
not a sum over the block's own rows. -/
def t2OpexBlock (endFirst : Nat) (vgoMapping : List (List Value)) (pivot : List PivotVal) :
    Block :=
  { label := "Check"
    rows := withIdx (endFirst + 5 + (filteredPivot pivot).length + 6)
      ((t2OpexRows vgoMapping pivot).map T2OpexRow.calculated_sum)
    check := CheckCell.const (pivotTotal pivot) }

/-!  Status classification and the reconciliation queue
(`_write_pivot_to_sheet` VGO branch, `_get_mapping_keys`,
`VgoProcessor.find_err_be`). -/

/-- One row written to the VGO first mapping block (columns G..K). -/
structure VgoWrittenRow where
  row : Nat
  lookupKey : String
  be_supplier : String
  cfoVal : String
  status : String
deriving DecidableEq

/-- Analysis status written for a lookup key: "ОК" when the key is in a
non-empty mapping key set, "Нет в мэппинге" when it is not, and the
fallback "ОК" when the key set is empty (Python's set truthiness). -/
def analysisStatus (mappingKeys : List String) (lookupKey : String) : String :=
  if mappingKeys ≠ [] ∧ lookupKey ∈ mappingKeys then "ОК"
  else if mappingKeys ≠ [] then "Нет в мэппинге"
  else "ОК"

/-- Rows of the VGO first mapping block, written from sheet row 6,
skipping "Общий итог" pivot records. -/
def writeVgoRowsAux (mappingKeys : List String) : Nat → List PivotVal → List VgoWrittenRow
  | _, [] => []
  | r, v :: rest =>
    if v.be_supplier = "Общий итог" then writeVgoRowsAux mappingKeys r rest
    else
      { row := r
        lookupKey := v.be_supplier ++ v.cfo
        be_supplier := v.be_supplier
        cfoVal := v.cfo
        status := analysisStatus mappingKeys (v.be_supplier ++ v.cfo) }
        :: writeVgoRowsAux mappingKeys (r + 1) rest

/-- Model of the VGO branch of `_write_pivot_to_sheet`. -/
def writeVgoPivotRows (mappingKeys : List String) (pivot : List PivotVal) : List VgoWrittenRow :=
  writeVgoRowsAux mappingKeys 6 pivot

/-- One reconciliation-queue record (`ArrErrBE`). -/
structure ErrBe where
  be : String
  cfo : String
  key : String
  contract : String
  row : Nat
deriving DecidableEq

/-- Model of `find_err_be`: reading back the written rows, a record
enters the queue iff its supplier cell is non-empty and its
supplier++cost-center concatenation is absent from the mapping key
set. -/
def findErrBe (mappingKeys : List String) (rows : List VgoWrittenRow) : List ErrBe :=
  rows.filterMap (fun r =>
    if r.be_supplier = "" then Option.none
    else if r.be_supplier ++ r.cfoVal ∈ mappingKeys then Option.none
    else Option.some ⟨r.be_supplier, r.cfoVal, r.be_supplier ++ r.cfoVal, "", r.row⟩)

/-!  Reconciliation ledger pivot and substitute search
(`VgoProcessor.create_vgo_pivot_data`, `VgoProcessor.search_in_vgo_pivot`). -/

/-- Group key of the reconciliation ledger pivot: business unit,
cost-center, article, contract reference. -/
structure VgoKey where
  be : String
  cfo : String
  article : String
  refId : String
deriving DecidableEq

/-- One raw row of the "Данные_из_файла_по_ВГО" sheet. -/
structure VgoCells where
  be : Value
  account : Value
  article : Value
  cfo : Value
  refId : Value
  amount : Value
deriving DecidableEq

/-- Model of `create_vgo_pivot_data`: keep only rows whose account is
"EXPENSE", group by (unit, cost-center, article, reference) and sum the
transaction amounts.  (pandas sorts group keys; key order only affects
tie-breaking in the top-5 selection, which pandas leaves unspecified.) -/
def createVgoPivotData (rows : List VgoCells) : List (VgoKey × ℚ) :=
  groupSum (fun r => VgoKey.mk (pyStr r.be) (pyStr r.cfo) (pyStr r.article) (pyStr r.refId))
    (fun r => safeFloatV r.amount 0)
    (rows.filter (fun r => pyStr r.account == "EXPENSE"))

/-- One search-result record (`ArrRpt`). -/
structure RptRec where
  be : String
  cfo : String
  cfo_oper : String
  article : String
  sum : ℚ
  contract : String
  status : String
deriving DecidableEq

/-- The "Нет в выверке ВГО" (not found) output record: amount 0. -/
def notFoundRec (err : ErrBe) : RptRec :=
  ⟨err.be, err.cfo, "Нет в выверке ВГО", "Нет в выверке ВГО", 0, err.contract,
    "Нет в выверке ВГО"⟩

/-- A "Есть в выверке ВГО" (found) output record built from a ledger
pivot entry. -/
def foundRec (err : ErrBe) (e : VgoKey × ℚ) : RptRec :=
  ⟨err.be, err.cfo, e.1.cfo, e.1.article, e.2, err.contract, "Есть в выверке ВГО"⟩

/-- Model of the per-record body of `search_in_vgo_pivot`: no contract →
not found; otherwise filter the ledger pivot by the contract reference,
drop excluded articles, and emit the top 5 remaining entries by summed
amount descending, or a single not-found record. -/
def searchOne (exclusions : List String) (pivot : List (VgoKey × ℚ)) (err : ErrBe) :
    List RptRec :=
  if err.contract = "" then [notFoundRec err]
  else
    let filtered := pivot.filter (fun e => e.1.refId == err.contract)
    if filtered.isEmpty then [notFoundRec err]
    else
      let filtered2 := filtered.filter (fun e => !(exclusions.contains e.1.article))
      if filtered2.isEmpty then [notFoundRec err]
      else ((filtered2.insertionSort (fun a b => b.2 ≤ a.2)).take 5).map (foundRec err)

/-- Model of `search_in_vgo_pivot`: an empty ledger pivot returns no
records at all; otherwise every queue record is processed in order. -/
def searchInVgoPivot (exclusions : List String) (pivot : List (VgoKey × ℚ))
    (errs : List ErrBe) : List RptRec :=
  if pivot.isEmpty then [] else errs.flatMap (searchOne exclusions pivot)

/-!  Minimal formula evaluation in mapping key columns
(`get_vgo_mapping_data`, `evaluate_vgo_t2_mapping_formulas`). -/

/-- Python's `s.split("&")` on a character list. -/
def splitAmp : List Char → List (List Char)
  | [] => [[]]
  | c :: t =>
    if c = '&' then [] :: splitAmp t
    else
      match splitAmp t with
      | [] => [[c]]
      | h :: r => (c :: h) :: r

/-- Strip one leading `$` (the `[$]?` of openpyxl's coordinate regex). -/
def dropDollar : List Char → List Char
  | '$' :: t => t
  | cs => cs

/-- Column letters to a 1-based column index (case-insensitive). -/
def colLettersToIndex (cs : List Char) : Nat :=
  cs.foldl (fun a c => a * 26 + (c.toUpper.toNat - 64)) 0

/-- Model of openpyxl's `coordinate_from_string` +
`column_index_from_string`: optional `$`, 1–3 letters, optional `$`,
digits to the end, row at least 1; returns (row, column index) or fails
(the Python exception, caught by the caller). -/
def parseCellRef (cs : List Char) : Option (Nat × Nat) :=
  let cs1 := dropDollar cs
  let letters := cs1.takeWhile Char.isAlpha
  let rest := cs1.dropWhile Char.isAlpha
  if letters.length = 0 ∨ 3 < letters.length then Option.none
  else
    let rest2 := dropDollar rest
    let digits := rest2.takeWhile Char.isDigit
    let rest3 := rest2.dropWhile Char.isDigit
    if digits.length = 0 ∨ rest3 ≠ [] then Option.none
    else
      let row := digitsToNat digits
      if row = 0 then Option.none else Option.some (row, colLettersToIndex letters)

/-- Evaluation of the parts of a split formula: with exactly two parts,
every "=" is removed from the first part, both parts are stripped, and
if both parse as cell references the cell becomes the concatenation of
the referenced cells' string forms; in every other case (a different
number of parts, or a failed reference parse — the caught Python
exception) the original value `v` is kept. -/
def evalParts (grid : Nat → Nat → Value) (v : Value) : List (List Char) → Value
  | [p1, p2] =>
    match parseCellRef (pyStripL (p1.filter (fun c => !(c == '=')))),
        parseCellRef (pyStripL p2) with
    | Option.some r1, Option.some r2 =>
        Value.str (pyStr (grid r1.1 r1.2) ++ pyStr (grid r2.1 r2.2))
    | _, _ => v
  | _ => v

/-- Model of the key-column formula evaluation (`get_vgo_mapping_data`,
`evaluate_vgo_t2_mapping_formulas`): a string cell starting with "=" is
split on "&" and handled by `evalParts`; any other cell is kept. -/
def evalKeyCell (grid : Nat → Nat → Value) (v : Value) : Value :=
  match v with
  | Value.str s =>
    if strStartsWithChar s '=' then evalParts grid v (splitAmp s.toList) else v
  | _ => v

/-- The specification's formula shape `=REF1&REF2`: exactly two
single-cell references joined by a single "&" right after the leading
"=". -/
def isConcatShape (s : String) : Bool :=
  strStartsWithChar s '=' &&
    (match splitAmp (s.toList.drop 1) with
     | [p1, p2] => (parseCellRef p1).isSome && (parseCellRef p2).isSome
     | _ => false)

/-!  Lexicographic order produced by chains of stable sorts. -/

/-- Combination of a primary total preorder with a tie-breaking
relation: strictly smaller under the primary key, or tied and related by
the secondary relation. -/
def lexPair {α : Type} (le₁ r₂ : α → α → Prop) : α → α → Prop :=
  fun a b => (le₁ a b ∧ ¬ le₁ b a) ∨ (le₁ a b ∧ le₁ b a ∧ r₂ a b)

/-- The trivial relation (base of a sort chain). -/
def trueRel {α : Type} : α → α → Prop := fun _ _ => True

/-- The documented order of the budget OPEX block: supplier unit
descending, then buyer unit, operational cost-center and operational
article ascending. -/
def opexOrder : OpexRow → OpexRow → Prop :=
  lexPair (fun a b => b.be_supplier ≤ a.be_supplier)
    (lexPair (fun a b => a.be_buyer ≤ b.be_buyer)
      (lexPair (fun a b => a.cfo_oper ≤ b.cfo_oper)
        (lexPair (fun a b => a.stat_oper ≤ b.stat_oper) trueRel)))

/-! ### Theorems -/

theorem withIdx_map_snd {α : Type} (n : Nat) (l : List α) : (withIdx n l).map Prod.snd = l := by
  induction l generalizing n with
  | nil => rfl
  | cons a t ih => simp [withIdx, ih]

theorem withIdx_map_fst {α : Type} (n : Nat) (l : List α) :
    (withIdx n l).map Prod.fst = List.range' n l.length := by
  induction l generalizing n with
  | nil => rfl
  | cons a t ih => simp [withIdx, List.range', ih]

theorem mem_withIdx_bounds {α : Type} {n : Nat} {l : List α} {p : Nat × α}
    (h : p ∈ withIdx n l) : n ≤ p.1 ∧ p.1 < n + l.length := by
  induction l generalizing n with
  | nil => simp [withIdx] at h
  | cons a t ih =>
    simp only [withIdx, List.mem_cons] at h
    rcases h with h | h
    · subst h; simp
    · have := ih h
      simp only [List.length_cons]
      omega

theorem get?_mem_withIdx {α : Type} :
    ∀ (l : List α) (i : Nat) (v : α) (n : Nat),
      l.get? i = some v → (n + i, v) ∈ withIdx n l
  | [], _, _, _, h => by simp at h
  | a :: t, 0, v, n, h => by
    simp only [List.get?] at h
    cases h
    simp [withIdx]
  | a :: t, j + 1, v, n, h => by
    simp only [List.get?] at h
    have h2 := get?_mem_withIdx t j v (n + 1) h
    have e : n + (j + 1) = n + 1 + j := by omega
    rw [e]
    exact List.mem_cons_of_mem _ h2

theorem sumSnd_upsertAdd {K : Type} [DecidableEq K] (k : K) (v : ℚ) :
    ∀ l : List (K × ℚ), ((upsertAdd k v l).map Prod.snd).sum = (l.map Prod.snd).sum + v
  | [] => by simp [upsertAdd]
  | p :: rest => by
    rcases p with ⟨pk, pv⟩
    simp only [upsertAdd]
    by_cases h : pk = k
    · rw [if_pos h]
      simp only [List.map_cons, List.sum_cons]
      ring
    · rw [if_neg h]
      simp only [List.map_cons, List.sum_cons, sumSnd_upsertAdd k v rest]
      ring

theorem lookupD_upsertAdd {K : Type} [DecidableEq K] (k' k : K) (v : ℚ) :
    ∀ l : List (K × ℚ),
      lookupD (upsertAdd k' v l) k 0 = lookupD l k 0 + (if k' = k then v else 0)
  | [] => by
    by_cases h : k' = k
    · simp [upsertAdd, lookupD, h]
    · simp [upsertAdd, lookupD, h]
  | p :: rest => by
    rcases p with ⟨pk, pv⟩
    simp only [upsertAdd]
    by_cases h : pk = k'
    · rw [if_pos h]
      by_cases h2 : pk = k
      · have hk : k' = k := by rw [← h, h2]
        simp [lookupD, h2, hk]
      · have hk : ¬ k' = k := by rw [← h]; exact h2
        simp [lookupD, h2, hk]
    · rw [if_neg h]
      by_cases h2 : pk = k
      · have hk : ¬ k' = k := fun e => h (h2.trans e.symm)
        simp [lookupD, h2, hk]
      · simp [lookupD, h2, lookupD_upsertAdd k' k v rest]

theorem keys_upsertAdd_mem {K : Type} [DecidableEq K] (k' k : K) (v : ℚ) :
    ∀ l : List (K × ℚ), k ∈ (upsertAdd k' v l).map Prod.fst ↔ k ∈ l.map Prod.fst ∨ k = k'
  | [] => by simp [upsertAdd]
  | p :: rest => by
    rcases p with ⟨pk, pv⟩
    simp only [upsertAdd]
    by_cases h : pk = k'
    · rw [if_pos h]
      subst h
      simp only [List.map_cons, List.mem_cons]
      tauto
    · rw [if_neg h]
      simp only [List.map_cons, List.mem_cons]
      rw [keys_upsertAdd_mem k' k v rest]
      tauto

theorem keys_upsertAdd_nodup {K : Type} [DecidableEq K] (k' : K) (v : ℚ) :
    ∀ l : List (K × ℚ), (l.map Prod.fst).Nodup → ((upsertAdd k' v l).map Prod.fst).Nodup
  | [], _ => by simp [upsertAdd]
  | p :: rest, h => by
    rcases p with ⟨pk, pv⟩
    simp only [List.map_cons, List.nodup_cons] at h
    simp only [upsertAdd]
    by_cases hp : pk = k'
    · rw [if_pos hp]
      simp only [List.map_cons, List.nodup_cons]
      exact ⟨h.1, h.2⟩
    · rw [if_neg hp]
      simp only [List.map_cons, List.nodup_cons]
      constructor
      · rw [keys_upsertAdd_mem]
        rintro (hc | hc)
        · exact h.1 hc
        · exact hp hc
      · exact keys_upsertAdd_nodup k' v rest h.2

theorem groupSum_aux_total {α K : Type} [DecidableEq K] (key : α → K) (val : α → ℚ)
    (rows : List α) (acc : List (K × ℚ)) :
    ((rows.foldl (fun acc r => upsertAdd (key r) (val r) acc) acc).map Prod.snd).sum
      = (acc.map Prod.snd).sum + (rows.map val).sum := by
  induction rows generalizing acc with
  | nil => simp
  | cons r rest ih =>
    simp only [List.foldl_cons, List.map_cons, List.sum_cons]
    rw [ih, sumSnd_upsertAdd]
    ring

/-- Total preservation: the grouped sums add up to the sum of the
coerced per-row values. -/
theorem groupSum_total {α K : Type} [DecidableEq K] (key : α → K) (val : α → ℚ) (rows : List α) :
    ((groupSum key val rows).map Prod.snd).sum = (rows.map val).sum := by
  have := groupSum_aux_total key val rows []
  simpa [groupSum] using this

theorem groupSum_aux_lookup {α K : Type} [DecidableEq K] (key : α → K) (val : α → ℚ)
    (rows : List α) (acc : List (K × ℚ)) (k : K) :
    lookupD (rows.foldl (fun acc r => upsertAdd (key r) (val r) acc) acc) k 0
      = lookupD acc k 0 + ((rows.filter (fun r => decide (key r = k))).map val).sum := by
  induction rows generalizing acc with
  | nil => simp
  | cons r rest ih =>
    simp only [List.foldl_cons]
    rw [ih, lookupD_upsertAdd]
    by_cases h : key r = k
    · simp [List.filter_cons, h]; ring
    · simp [List.filter_cons, h]

/-- Per-key correctness: the stored aggregate of key `k` is the sum of
the coerced amounts of exactly the rows whose key is `k`. -/
theorem groupSum_lookupD {α K : Type} [DecidableEq K] (key : α → K) (val : α → ℚ)
    (rows : List α) (k : K) :
    lookupD (groupSum key val rows) k 0
      = ((rows.filter (fun r => decide (key r = k))).map val).sum := by
  have := groupSum_aux_lookup key val rows [] k
  simpa [groupSum, lookupD] using this

theorem groupSum_aux_nodup {α K : Type} [DecidableEq K] (key : α → K) (val : α → ℚ)
    (rows : List α) (acc : List (K × ℚ)) (h : (acc.map Prod.fst).Nodup) :
    (((rows.foldl (fun acc r => upsertAdd (key r) (val r) acc) acc)).map Prod.fst).Nodup := by
  induction rows generalizing acc with
  | nil => simpa
  | cons r rest ih =>
    simp only [List.foldl_cons]
    exact ih _ (keys_upsertAdd_nodup _ _ _ h)

/-- Distinctness: every key appears exactly once among the grouped
results. -/
theorem groupSum_keys_nodup {α K : Type} [DecidableEq K] (key : α → K) (val : α → ℚ)
    (rows : List α) : ((groupSum key val rows).map Prod.fst).Nodup := by
  have := groupSum_aux_nodup key val rows [] (by simp)
  simpa [groupSum] using this

theorem groupSum_aux_mem {α K : Type} [DecidableEq K] (key : α → K) (val : α → ℚ)
    (rows : List α) (acc : List (K × ℚ)) (k : K) :
    (k ∈ ((rows.foldl (fun acc r => upsertAdd (key r) (val r) acc) acc)).map Prod.fst)
      ↔ k ∈ acc.map Prod.fst ∨ ∃ r ∈ rows, key r = k := by
  induction rows generalizing acc with
  | nil => simp
  | cons r rest ih =>
    simp only [List.foldl_cons]
    rw [ih]
    rw [keys_upsertAdd_mem]
    constructor
    · rintro ((h | h) | h)
      · exact Or.inl h
      · exact Or.inr ⟨r, List.mem_cons_self r rest, h.symm⟩
      · rcases h with ⟨r', hr', hk⟩
        exact Or.inr ⟨r', List.mem_cons_of_mem _ hr', hk⟩
    · rintro (h | ⟨r', hr', hk⟩)
      · exact Or.inl (Or.inl h)
      · rcases List.mem_cons.mp hr' with h | h
        · subst h; exact Or.inl (Or.inr hk.symm)
        · exact Or.inr ⟨r', h, hk⟩

/-- Key coverage: `k` is a grouped key iff some row has key `k`. -/
theorem groupSum_mem_keys {α K : Type} [DecidableEq K] (key : α → K) (val : α → ℚ)
    (rows : List α) (k : K) :
    k ∈ (groupSum key val rows).map Prod.fst ↔ ∃ r ∈ rows, key r = k := by
  have := groupSum_aux_mem key val rows [] k
  simpa [groupSum] using this

theorem lookupD_of_mem_nodup {K : Type} [DecidableEq K] {l : List (K × ℚ)} {p : K × ℚ}
    (hm : p ∈ l) (hn : (l.map Prod.fst).Nodup) (d : ℚ) : lookupD l p.1 d = p.2 := by
  induction l with
  | nil => simp at hm
  | cons q rest ih =>
    simp only [List.map_cons, List.nodup_cons] at hn
    rcases List.mem_cons.mp hm with h | h
    · subst h; simp [lookupD]
    · have hne : ¬ q.1 = p.1 := by
        intro e
        exact hn.1 (e ▸ List.mem_map_of_mem Prod.fst h)
      simp [lookupD, hne, ih h hn.2]

/-- C2.  Pivot aggregation correctness (`_create_pivot_data`): for every
filtered input row set, (a) each distinct composite key appears exactly
once among the pivot records, (b) a key is present iff some input row
carries it, (c) the amount stored for a key is the sum of the
numeric-coerced amounts of exactly its matching rows, and (d) the sum of
all pivot amounts equals the sum of all included rows' coerced amounts —
no included row's monetary value is dropped or duplicated. -/
theorem pivot_aggregation_correct (beSupIdx cfoIdx beBuyIdx sumIdx : Nat)
    (rows : List (List Value)) :
    (((createPivotData beSupIdx cfoIdx beBuyIdx sumIdx rows).map Prod.fst).Nodup)
    ∧ (∀ k, k ∈ (createPivotData beSupIdx cfoIdx beBuyIdx sumIdx rows).map Prod.fst
        ↔ ∃ r ∈ rows, pivotKeyOf beSupIdx cfoIdx beBuyIdx r = k)
    ∧ (∀ p ∈ createPivotData beSupIdx cfoIdx beBuyIdx sumIdx rows,
        p.2 = ((rows.filter (fun r => decide (pivotKeyOf beSupIdx cfoIdx beBuyIdx r = p.1))).map
          (fun row => safeFloatV (getV row sumIdx) 0)).sum)
    ∧ ((createPivotData beSupIdx cfoIdx beBuyIdx sumIdx rows).map Prod.snd).sum
        = (rows.map (fun row => safeFloatV (getV row sumIdx) 0)).sum := by
  refine ⟨groupSum_keys_nodup _ _ _, fun k => groupSum_mem_keys _ _ _ _, ?_, groupSum_total _ _ _⟩
  intro p hp
  have hn := groupSum_keys_nodup (pivotKeyOf beSupIdx cfoIdx beBuyIdx)
    (fun row => safeFloatV (getV row sumIdx) 0) rows
  have := lookupD_of_mem_nodup hp hn 0
  rw [← this]
  exact groupSum_lookupD _ _ _ _

/-- C2 witness: evaluating the pivot on two rows sharing one key. -/
theorem pivot_aggregation_correct_witness :
    ([(("S", "C", "B"), (5 : ℚ))].map Prod.snd).sum
      = ([[Value.str "S", Value.str "C", Value.str "B", Value.num 2],
          [Value.str "S", Value.str "C", Value.str "B", Value.num 3]].map
            (fun row => safeFloatV (getV row 3) 0)).sum := by
  have h := (pivot_aggregation_correct 0 1 2 3
    [[Value.str "S", Value.str "C", Value.str "B", Value.num 2],
     [Value.str "S", Value.str "C", Value.str "B", Value.num 3]]).2.2.2
  have e : createPivotData 0 1 2 3
      [[Value.str "S", Value.str "C", Value.str "B", Value.num 2],
       [Value.str "S", Value.str "C", Value.str "B", Value.num 3]]
      = [(("S", "C", "B"), (5 : ℚ))] := by
    simp only [createPivotData, groupSum, List.foldl_cons, List.foldl_nil, upsertAdd,
      pivotKeyOf, getV, safeFloatV, List.getD, pyStr]
    norm_num
  rw [e] at h
  exact h

/-- C9.  Cost-center validation gate: once the Marja sheet is loaded and
the buyer cost-center column located, any data-row value of string
length below 3 makes `_validate_cfo` fail, the offending row is
highlighted, and `process` returns `success = false` with a non-empty
error list, regardless of what the rest of the run would have
produced. -/
theorem cfo_validation_gate (values : List Value) (rest : ProcResult) (i : Nat) (v : Value)
    (hget : values.get? i = some v) (hshort : (pyStr v).length < 3) :
    (processCfoGate true values rest).success = false
    ∧ (processCfoGate true values rest).errors = [cfoErrorMsg]
    ∧ i ∈ (validateCfo true values).2 := by
  have hmem : (i, v) ∈ withIdx 0 values := by
    have := get?_mem_withIdx values i v 0 hget
    simpa using this
  have hfmem : (i, v) ∈ (withIdx 0 values).filter (fun p => decide ((pyStr p.2).length < 3)) := by
    rw [List.mem_filter]
    exact ⟨hmem, by simpa using hshort⟩
  have hne : ¬ ((withIdx 0 values).filter (fun p => decide ((pyStr p.2).length < 3))).isEmpty := by
    intro he
    rw [List.isEmpty_iff] at he
    rw [he] at hfmem
    simp at hfmem
  have hval : (validateCfo true values).1 = false := by
    simp only [validateCfo, if_pos rfl]
    exact Bool.not_eq_true _ ▸ (by simpa using hne)
  refine ⟨?_, ?_, ?_⟩
  · simp [processCfoGate, hval]
  · simp [processCfoGate, hval]
  · simp only [validateCfo, if_pos rfl]
    exact List.mem_map_of_mem Prod.fst hfmem

/-- C9 witness (Scenario 4): a single cost-center value "12" of length 2
fails the run with the descriptive error. -/
theorem cfo_validation_gate_witness :
    (processCfoGate true [Value.str "12"] ⟨true, []⟩).success = false
    ∧ (processCfoGate true [Value.str "12"] ⟨true, []⟩).errors = [cfoErrorMsg]
    ∧ 0 ∈ (validateCfo true [Value.str "12"]).2 :=
  cfo_validation_gate [Value.str "12"] ⟨true, []⟩ 0 (Value.str "12") (by decide) (by decide)

/-- C10.  Grand-total row of the first-level summary table
(`_write_summary_table`): whenever at least one data row is written,
exactly one trailing "Общий итог" amount is produced and it equals the
sum of the written data rows' amounts (which equals the sum of the pivot
input's amounts); with an empty pivot input no grand total is written. -/
theorem summary_grand_total (pivot : List PivotVal) (sortDesc : Bool) :
    (pivot ≠ [] →
      (writeSummaryTable pivot sortDesc).2
          = Option.some (((writeSummaryTable pivot sortDesc).1.map PivotVal.sum).sum)
      ∧ (((writeSummaryTable pivot sortDesc).1.map PivotVal.sum).sum
          = (pivot.map PivotVal.sum).sum))
    ∧ (pivot = [] → (writeSummaryTable pivot sortDesc).2 = Option.none) := by
  constructor
  · intro hne
    have hperm : (writeSummaryTable pivot sortDesc).1.Perm pivot := by
      simp only [writeSummaryTable]
      by_cases h : sortDesc
      · simpa [h] using List.perm_insertionSort (fun a b => b.sum ≤ a.sum) pivot
      · simp [h]
    have hlen : (writeSummaryTable pivot sortDesc).1 ≠ [] := by
      intro he
      have := hperm.length_eq
      rw [he] at this
      exact hne (List.length_eq_zero.mp this.symm)
    constructor
    · simp only [writeSummaryTable] at hlen ⊢
      rw [if_neg (by simpa [List.isEmpty_iff] using hlen)]
    · exact ((hperm.map PivotVal.sum).sum_eq)
  · intro he
    subst he
    simp [writeSummaryTable, List.insertionSort]

/-- C10 witness: one pivot record yields a grand total equal to its
amount. -/
theorem summary_grand_total_witness :
    (writeSummaryTable [⟨"S", "C", "B", 2⟩] true).2
        = Option.some (((writeSummaryTable [⟨"S", "C", "B", 2⟩] true).1.map PivotVal.sum).sum)
    ∧ ((writeSummaryTable [⟨"S", "C", "B", 2⟩] true).1.map PivotVal.sum).sum
        = ([⟨"S", "C", "B", 2⟩].map PivotVal.sum).sum :=
  (summary_grand_total [⟨"S", "C", "B", 2⟩] true).1 (by simp)

theorem withIdx_length {α : Type} (n : Nat) (l : List α) : (withIdx n l).length = l.length := by
  induction l generalizing n with
  | nil => rfl
  | cons a t ih => simp [withIdx, ih]

theorem checkValue_sumFormula_all (b : Block) (col r1 r2 : Nat)
    (hc : b.check = CheckCell.sumFormula col r1 r2)
    (h : ∀ p ∈ b.rows, r1 ≤ p.1 ∧ p.1 ≤ r2) : checkValue b = sumAmounts b := by
  have he : b.rows.filter (fun p => decide (r1 ≤ p.1 ∧ p.1 ≤ r2)) = b.rows :=
    List.filter_eq_self.mpr (fun p hp => by simpa using h p hp)
  unfold checkValue
  rw [hc]
  dsimp only
  rw [he]
  rfl

theorem sum_negated_pivot : ∀ l : List PivotVal,
    (l.map (fun v => -v.sum * 100 / 100)).sum = -((l.map PivotVal.sum).sum)
  | [] => by simp
  | v :: t => by
    simp only [List.map_cons, List.sum_cons, sum_negated_pivot t]
    ring

theorem vgoOpexSumRecomputed_aux (rows : List VgoOpexRow) (acc : ℚ) :
    rows.foldl (fun acc r => if r.calculated_sum ≠ 0 then acc + r.calculated_sum else acc) acc
      = acc + (rows.map VgoOpexRow.calculated_sum).sum := by
  induction rows generalizing acc with
  | nil => simp
  | cons r t ih =>
    simp only [List.foldl_cons, List.map_cons, List.sum_cons]
    rw [ih]
    by_cases h : r.calculated_sum = 0
    · simp [h]
    · simp only [ne_eq, h, not_false_eq_true, if_true]
      ring

theorem vgoOpexSumRecomputed_eq (rows : List VgoOpexRow) :
    vgoOpexSumRecomputed rows = (rows.map VgoOpexRow.calculated_sum).sum := by
  have := vgoOpexSumRecomputed_aux rows 0
  simpa [vgoOpexSumRecomputed] using this

/-- C1 (counterexample).  The claim fails on the T2-variant OPEX block:
with one pivot record of amount 100 and an empty T2 mapping, the block
writes no data rows (amount sum 0), yet its Check cell holds the full
pivot total 100. -/
theorem check_totals_counterexample :
    checkValue (t2OpexBlock 10 [] [⟨"S", "C", "B", 100⟩]) = 100
    ∧ sumAmounts (t2OpexBlock 10 [] [⟨"S", "C", "B", 100⟩]) = 0
    ∧ (100 : ℚ) ≠ 0 := by
  refine ⟨?_, ?_, by norm_num⟩
  · simp only [t2OpexBlock, checkValue]
    simp [pivotTotal, filteredPivot]
  · simp [t2OpexBlock, sumAmounts, t2OpexRows, t2MappingEntries, filteredPivot, withIdx]

/-- C1 (amended).  Check totals: on every variant, every generated
block's Check value equals the arithmetic sum of that block's own
written amount cells — except the T2-variant OPEX block, whose Check is
written as the full filtered pivot total (as the code computes it),
which in general differs from the block's own amount sum.  (All block
sums are exact rationals here, so the 1e-6 tolerance is satisfied
trivially wherever equality holds.) -/
theorem check_totals_amended (pivot : List PivotVal) (mapping : List OpexMapItem)
    (currentRow endFirst : Nat) (articleDict : List (String × String))
    (vgoMapping : List (List Value)) :
    checkValue (budgetFirstBlock pivot) = sumAmounts (budgetFirstBlock pivot)
    ∧ checkValue (budgetOpexBlock currentRow pivot mapping)
        = sumAmounts (budgetOpexBlock currentRow pivot mapping)
    ∧ checkValue (vgoCapexBlock endFirst pivot) = sumAmounts (vgoCapexBlock endFirst pivot)
    ∧ checkValue (vgoOpexBlock endFirst articleDict vgoMapping pivot)
        = sumAmounts (vgoOpexBlock endFirst articleDict vgoMapping pivot)
    ∧ checkValue (t2CapexBlock endFirst pivot) = sumAmounts (t2CapexBlock endFirst pivot)
    ∧ checkValue (t2OpexBlock endFirst vgoMapping pivot) = pivotTotal pivot := by
  refine ⟨?_, ?_, ?_, ?_, ?_, rfl⟩
  · refine checkValue_sumFormula_all _ 12 6 (5 + (budgetFirstRows pivot).length) rfl ?_
    intro p hp
    have hb := mem_withIdx_bounds (l :=
      ((pivot.filter (fun v => !(v.be_supplier == "Общий итог"))).map
        (fun v => -v.sum * 100 / 100))) (n := 6) hp
    have hl : (budgetFirstRows pivot).length
        = ((pivot.filter (fun v => !(v.be_supplier == "Общий итог"))).map
            (fun v => -v.sum * 100 / 100)).length := by
      simp [budgetFirstRows, withIdx_length]
    omega
  · refine checkValue_sumFormula_all _ 12 (currentRow + 1)
      (currentRow + (budgetOpexSorted pivot mapping).length) rfl ?_
    intro p hp
    have hb := mem_withIdx_bounds
      (l := (budgetOpexSorted pivot mapping).map OpexRow.sum) (n := currentRow + 1) hp
    have hl : ((budgetOpexSorted pivot mapping).map OpexRow.sum).length
        = (budgetOpexSorted pivot mapping).length := by simp
    omega
  · show checkValue (vgoCapexBlock endFirst pivot) = sumAmounts (vgoCapexBlock endFirst pivot)
    have hs : sumAmounts (vgoCapexBlock endFirst pivot) = -(pivotTotal pivot) := by
      simp only [sumAmounts, vgoCapexBlock, withIdx_map_snd, vgoCapexRows, pivotTotal]
      exact sum_negated_pivot _
    rw [hs]
    rfl
  · show checkValue (vgoOpexBlock endFirst articleDict vgoMapping pivot)
        = sumAmounts (vgoOpexBlock endFirst articleDict vgoMapping pivot)
    have hs : sumAmounts (vgoOpexBlock endFirst articleDict vgoMapping pivot)
        = vgoOpexSumRecomputed (vgoOpexSorted articleDict vgoMapping pivot) := by
      simp only [sumAmounts, vgoOpexBlock, withIdx_map_snd]
      exact (vgoOpexSumRecomputed_eq _).symm
    rw [hs]
    rfl
  · show checkValue (t2CapexBlock endFirst pivot) = sumAmounts (t2CapexBlock endFirst pivot)
    have hs : sumAmounts (t2CapexBlock endFirst pivot) = -(pivotTotal pivot) := by
      simp only [sumAmounts, t2CapexBlock, withIdx_map_snd, pivotTotal]
      exact sum_negated_pivot _
    rw [hs]
    rfl

/-- C6 (counterexample).  The claim fails on the VGO variants: the CAPEX
block's check cell is a Python-precomputed numeric constant (here
`-100`), not a live spreadsheet SUM formula. -/
theorem check_cells_counterexample :
    isLiveFormula (vgoCapexBlock 10 [⟨"S", "C", "B", 100⟩]).check = false
    ∧ (vgoCapexBlock 10 [⟨"S", "C", "B", 100⟩]).check = CheckCell.const (-100) := by
  constructor
  · rfl
  · simp only [vgoCapexBlock, CheckCell.const.injEq]
    simp [pivotTotal, filteredPivot]

/-- C6 (amended).  Check cells: every block carries the literal "Check"
label.  On the budget variants the check cell is a live
`=SUM($L{first}:$L{last})` formula whose row range exactly covers the
block's written amount rows (the written row indices are precisely
`first..last`).  On the VGO and T2 variants the check cells are
Python-precomputed numeric constants, not formulas. -/
theorem check_cells_amended (pivot : List PivotVal) (mapping : List OpexMapItem)
    (currentRow endFirst : Nat) (articleDict : List (String × String))
    (vgoMapping : List (List Value)) :
    (budgetFirstBlock pivot).label = "Check"
    ∧ (budgetFirstBlock pivot).check
        = CheckCell.sumFormula 12 6 (5 + (budgetFirstBlock pivot).rows.length)
    ∧ (budgetFirstBlock pivot).rows.map Prod.fst
        = List.range' 6 (budgetFirstBlock pivot).rows.length
    ∧ (budgetOpexBlock currentRow pivot mapping).label = "Check"
    ∧ (budgetOpexBlock currentRow pivot mapping).check
        = CheckCell.sumFormula 12 (currentRow + 1)
            (currentRow + (budgetOpexBlock currentRow pivot mapping).rows.length)
    ∧ (budgetOpexBlock currentRow pivot mapping).rows.map Prod.fst
        = List.range' (currentRow + 1) (budgetOpexBlock currentRow pivot mapping).rows.length
    ∧ (vgoCapexBlock endFirst pivot).label = "Check"
    ∧ (vgoOpexBlock endFirst articleDict vgoMapping pivot).label = "Check"
    ∧ (t2CapexBlock endFirst pivot).label = "Check"
    ∧ (t2OpexBlock endFirst vgoMapping pivot).label = "Check"
    ∧ isLiveFormula (vgoCapexBlock endFirst pivot).check = false
    ∧ isLiveFormula (vgoOpexBlock endFirst articleDict vgoMapping pivot).check = false
    ∧ isLiveFormula (t2CapexBlock endFirst pivot).check = false
    ∧ isLiveFormula (t2OpexBlock endFirst vgoMapping pivot).check = false := by
  refine ⟨rfl, ?_, ?_, rfl, ?_, ?_, rfl, rfl, rfl, rfl, rfl, rfl, rfl, rfl⟩
  · show CheckCell.sumFormula 12 6 (5 + (budgetFirstRows pivot).length)
      = CheckCell.sumFormula 12 6 (5 + (budgetFirstBlock pivot).rows.length)
    rfl
  · show (budgetFirstRows pivot).map Prod.fst = List.range' 6 (budgetFirstRows pivot).length
    simp only [budgetFirstRows, withIdx_map_fst, withIdx_length]
  · show (budgetOpexBlock currentRow pivot mapping).check = _
    simp only [budgetOpexBlock, withIdx_length, List.length_map]
  · show (withIdx (currentRow + 1) ((budgetOpexSorted pivot mapping).map OpexRow.sum)).map
        Prod.fst
      = List.range' (currentRow + 1)
          (withIdx (currentRow + 1) ((budgetOpexSorted pivot mapping).map OpexRow.sum)).length
    simp only [withIdx_map_fst, withIdx_length]

theorem pyRound_nonneg {q : ℚ} (h : 0 ≤ q) : 0 ≤ pyRound q := by
  have hf : (0 : ℤ) ≤ ⌊q⌋ := Int.floor_nonneg.mpr h
  unfold pyRound
  split_ifs <;> omega

/-- C3 (counterexample).  The claim fails on the VGO OPEX path
(`create_vgo_second_block`): there the percent cell is used raw (no
rounding, no 0→1 replacement), so a mapping record with raw percent 0
produces a written amount of 0, not `base_sum * 1/100`. -/
theorem percent_normalization_counterexample :
    (vgoOpexRowsRaw []
        [[Value.str "SC", Value.str "S", Value.str "C", Value.str "OP1", Value.str "PL",
          Value.str "ART", Value.num 10, Value.num 0]]
        [⟨"S", "C", "B", 100⟩]).map VgoOpexRow.calculated_sum = [0]
    ∧ (0 : ℚ) ≠ 100 * 1 / 100 := by
  constructor
  · simp [vgoOpexRowsRaw, filteredPivot, vgoMappingEntries, vgoMapEntriesAux, vgoKeyOf,
      vgoRowId, vgoOpexRowFor, vgoOpexStatOper, vgoOpexPercent, expenseSums, groupSum,
      upsertAdd, getV, pyStr, strStartsWithChar, isFormulaV, safeFloatV, lookupD]
  · norm_num

/-- C3 (amended).  Percent normalization: in the budget OPEX mapping
block the resolved weight is Python's `round(raw)` with a rounded 0
replaced by 1, which equals `max(1, round(raw_percent))` for every
nonnegative raw percent; a raw percent of 0 resolves to weight 1, and
the derived row amount is then `base_sum * 1 / 100`, not zero.  (The
VGO and T2 OPEX blocks instead use the raw percent unrounded, per the
counterexample.) -/
theorem percent_normalization_amended :
    (∀ raw : ℚ, 0 ≤ raw → budgetPercentWeight raw = max 1 (pyRound raw))
    ∧ budgetPercentWeight 0 = 1
    ∧ (∀ (p : (String × String) × ℚ) (m : OpexMapItem), m.percent = 0 →
        (mkBudgetOpexRow p m).sum = p.2 * 1 / 100) := by
  have h0 : pyRound 0 = 0 := by
    unfold pyRound
    norm_num
  refine ⟨?_, ?_, ?_⟩
  · intro raw h
    have hr := pyRound_nonneg h
    unfold budgetPercentWeight
    by_cases hz : pyRound raw = 0
    · simp [hz]
    · rw [if_neg hz]
      omega
  · simp [budgetPercentWeight, h0]
  · intro p m hm
    simp [mkBudgetOpexRow, budgetPercentWeight, hm, h0]

/-- C3 witness: instantiating the amended normalization at raw percent
3/2 (rounds to 2 under banker's rounding). -/
theorem percent_normalization_amended_witness :
    budgetPercentWeight (3 / 2) = max 1 (pyRound (3 / 2)) :=
  percent_normalization_amended.1 (3 / 2) (by norm_num)

theorem writeVgoRowsAux_row_ge (keys : List String) :
    ∀ (start : Nat) (pivot : List PivotVal) (r : VgoWrittenRow),
      r ∈ writeVgoRowsAux keys start pivot → start ≤ r.row
  | _, [], _, h => by simp [writeVgoRowsAux] at h
  | start, v :: rest, r, h => by
    by_cases hv : v.be_supplier = "Общий итог"
    · rw [writeVgoRowsAux, if_pos hv] at h
      exact writeVgoRowsAux_row_ge keys start rest r h
    · rw [writeVgoRowsAux, if_neg hv] at h
      rcases List.mem_cons.mp h with h | h
      · subst h; exact Nat.le_refl _
      · have := writeVgoRowsAux_row_ge keys (start + 1) rest r h
        omega

theorem writeVgoRowsAux_pairwise (keys : List String) :
    ∀ (start : Nat) (pivot : List PivotVal),
      (writeVgoRowsAux keys start pivot).Pairwise (fun a b => a.row < b.row)
  | _, [] => by simp [writeVgoRowsAux]
  | start, v :: rest => by
    by_cases hv : v.be_supplier = "Общий итог"
    · rw [writeVgoRowsAux, if_pos hv]
      exact writeVgoRowsAux_pairwise keys start rest
    · rw [writeVgoRowsAux, if_neg hv]
      refine List.Pairwise.cons ?_ (writeVgoRowsAux_pairwise keys (start + 1) rest)
      intro b hb
      have := writeVgoRowsAux_row_ge keys (start + 1) rest b hb
      simp only []
      omega

theorem writeVgoRowsAux_fields (keys : List String) :
    ∀ (start : Nat) (pivot : List PivotVal) (r : VgoWrittenRow),
      r ∈ writeVgoRowsAux keys start pivot →
        r.status = analysisStatus keys (r.be_supplier ++ r.cfoVal)
  | _, [], _, h => by simp [writeVgoRowsAux] at h
  | start, v :: rest, r, h => by
    by_cases hv : v.be_supplier = "Общий итог"
    · rw [writeVgoRowsAux, if_pos hv] at h
      exact writeVgoRowsAux_fields keys start rest r h
    · rw [writeVgoRowsAux, if_neg hv] at h
      rcases List.mem_cons.mp h with h | h
      · subst h; rfl
      · exact writeVgoRowsAux_fields keys (start + 1) rest r h

theorem analysisStatus_of_ne (keys : List String) (hk : keys ≠ []) (k : String) :
    analysisStatus keys k = if k ∈ keys then "ОК" else "Нет в мэппинге" := by
  unfold analysisStatus
  by_cases hm : k ∈ keys
  · simp [hk, hm]
  · simp [hk, hm]

theorem mem_findErrBe_row (keys : List String) (rows : List VgoWrittenRow) (n : Nat) :
    n ∈ (findErrBe keys rows).map ErrBe.row
      ↔ ∃ r' ∈ rows, r'.be_supplier ≠ "" ∧ r'.be_supplier ++ r'.cfoVal ∉ keys
          ∧ r'.row = n := by
  unfold findErrBe
  rw [List.mem_map]
  constructor
  · rintro ⟨e, he, hrow⟩
    rcases List.mem_filterMap.mp he with ⟨r', hr', hf⟩
    by_cases h1 : r'.be_supplier = ""
    · simp [h1] at hf
    · by_cases h2 : r'.be_supplier ++ r'.cfoVal ∈ keys
      · simp [h1, h2] at hf
      · refine ⟨r', hr', h1, h2, ?_⟩
        rw [if_neg h1, if_neg h2] at hf
        injection hf with hf2
        rw [← hf2] at hrow
        simpa using hrow
  · rintro ⟨r', hr', h1, h2, hrow⟩
    refine ⟨⟨r'.be_supplier, r'.cfoVal, r'.be_supplier ++ r'.cfoVal, "", r'.row⟩, ?_, hrow⟩
    exact List.mem_filterMap.mpr ⟨r', hr', by rw [if_neg h1, if_neg h2]⟩

/-- C4 (counterexample).  The claim fails when the VGO mapping key set
is empty: the written row falls back to status "ОК" yet its key also
enters the reconciliation queue — the key is in both sets. -/
theorem key_completeness_counterexample :
    writeVgoPivotRows [] [⟨"S", "C", "B", 1⟩] = [⟨6, "SC", "S", "C", "ОК"⟩]
    ∧ (findErrBe [] (writeVgoPivotRows [] [⟨"S", "C", "B", 1⟩])).map ErrBe.row = [6] := by
  constructor <;> decide

/-- C4 (amended).  Key completeness holds provided the mapping key set
is non-empty, the status classification and the queue construction use
the same key set, and the pivot record's supplier code is non-empty:
then every written non-"Общий итог" row has status "ОК" exactly when
its row is absent from the reconciliation queue (so each key lands in
exactly one of the two sets), and its status is always one of "ОК" and
"Нет в мэппинге". -/
theorem key_completeness_amended (keys : List String) (pivot : List PivotVal)
    (hk : keys ≠ []) :
    ∀ r ∈ writeVgoPivotRows keys pivot, r.be_supplier ≠ "" →
      ((r.status = "ОК"
          ↔ r.row ∉ (findErrBe keys (writeVgoPivotRows keys pivot)).map ErrBe.row)
      ∧ (r.status = "ОК" ∨ r.status = "Нет в мэппинге")) := by
  intro r hr hbe
  have hst : r.status = analysisStatus keys (r.be_supplier ++ r.cfoVal) :=
    writeVgoRowsAux_fields keys 6 pivot r hr
  rw [analysisStatus_of_ne keys hk] at hst
  have hnd : ((writeVgoPivotRows keys pivot).map (fun r => r.row)).Nodup := by
    have hpw := writeVgoRowsAux_pairwise keys 6 pivot
    exact List.Pairwise.map (fun (r : VgoWrittenRow) => r.row)
      (fun (a b : VgoWrittenRow) h => Nat.ne_of_lt h) hpw
  have hinj : ∀ r' ∈ writeVgoPivotRows keys pivot, r'.row = r.row → r' = r :=
    fun r' hr' he => List.inj_on_of_nodup_map hnd hr' hr he
  constructor
  · constructor
    · intro hok hqueue
      rcases (mem_findErrBe_row keys _ r.row).mp hqueue with ⟨r', hr', _, hnot, hrow⟩
      have : r' = r := hinj r' hr' hrow
      subst this
      by_cases hm : r'.be_supplier ++ r'.cfoVal ∈ keys
      · exact hnot hm
      · rw [if_neg hm] at hst
        rw [hst] at hok
        exact absurd hok (by decide)
    · intro hqueue
      by_cases hm : r.be_supplier ++ r.cfoVal ∈ keys
      · rw [if_pos hm] at hst; exact hst
      · exact absurd ((mem_findErrBe_row keys _ r.row).mpr ⟨r, hr, hbe, hm, rfl⟩) hqueue
  · by_cases hm : r.be_supplier ++ r.cfoVal ∈ keys
    · rw [if_pos hm] at hst; exact Or.inl hst
    · rw [if_neg hm] at hst; exact Or.inr hst

/-- C4 witness: a single pivot record whose key is in the (non-empty)
mapping key set is written with status "ОК" and is not queued. -/
theorem key_completeness_amended_witness :
    ((⟨6, "SC", "S", "C", "ОК"⟩ : VgoWrittenRow).status = "ОК"
      ↔ (⟨6, "SC", "S", "C", "ОК"⟩ : VgoWrittenRow).row
          ∉ (findErrBe ["SC"] (writeVgoPivotRows ["SC"] [⟨"S", "C", "B", 1⟩])).map ErrBe.row)
    ∧ ((⟨6, "SC", "S", "C", "ОК"⟩ : VgoWrittenRow).status = "ОК"
        ∨ (⟨6, "SC", "S", "C", "ОК"⟩ : VgoWrittenRow).status = "Нет в мэппинге") :=
  key_completeness_amended ["SC"] [⟨"S", "C", "B", 1⟩] (by decide)
    ⟨6, "SC", "S", "C", "ОК"⟩ (by decide) (by decide)

theorem sorted_take_map_ne_nil (l : List (VgoKey × ℚ)) (err : ErrBe)
    (h : ¬ l.isEmpty = true) :
    ((l.insertionSort (fun a b => b.2 ≤ a.2)).take 5).map (foundRec err) ≠ [] := by
  intro hc
  rw [List.map_eq_nil_iff, List.take_eq_nil_iff] at hc
  rcases hc with hc | hc
  · exact absurd hc (by norm_num)
  · have hp := List.perm_insertionSort (fun (a b : VgoKey × ℚ) => b.2 ≤ a.2) l
    have hl := hp.length_eq
    rw [hc] at hl
    have : l = [] := List.length_eq_zero.mp hl.symm
    rw [← List.isEmpty_iff] at this
    exact h this

theorem searchOne_ne_nil (excl : List String) (pivot : List (VgoKey × ℚ)) (err : ErrBe) :
    searchOne excl pivot err ≠ [] := by
  unfold searchOne
  by_cases h1 : err.contract = ""
  · simp [h1]
  · rw [if_neg h1]
    dsimp only
    by_cases h2 : (pivot.filter (fun e => e.1.refId == err.contract)).isEmpty = true
    · rw [if_pos h2]
      simp
    · rw [if_neg h2]
      by_cases h3 : ((pivot.filter (fun e => e.1.refId == err.contract)).filter
          (fun e => !(excl.contains e.1.article))).isEmpty = true
      · rw [if_pos h3]
        simp
      · rw [if_neg h3]
        exact sorted_take_map_ne_nil _ err h3

theorem length_le_flatMap {α β : Type} (f : α → List β) :
    ∀ l : List α, (∀ a ∈ l, f a ≠ []) → l.length ≤ (l.flatMap f).length
  | [], _ => by simp
  | a :: t, h => by
    simp only [List.flatMap_cons, List.length_append, List.length_cons]
    have h1 : f a ≠ [] := h a (List.mem_cons_self a t)
    have h2 := length_le_flatMap f t (fun b hb => h b (List.mem_cons_of_mem a hb))
    have h3 : 1 ≤ (f a).length := List.length_pos.mpr h1
    omega

/-- C5 (counterexample).  The claim fails when the EXPENSE ledger pivot
is empty: `search_in_vgo_pivot` then returns no output records at all,
so the queue record (which per the claim should yield one
"Нет в выверке ВГО" record) is silently dropped. -/
theorem ledger_search_counterexample :
    searchInVgoPivot [] [] [⟨"S", "C", "SC", "", 6⟩] = []
    ∧ ¬ (1 ≤ (searchInVgoPivot [] [] [⟨"S", "C", "SC", "", 6⟩]).length) := by
  constructor
  · rfl
  · decide

/-- C5 (amended).  Ledger search, provided the EXPENSE-only ledger
pivot is non-empty: a queue record without a contract reference yields
exactly one "Нет в выверке ВГО" record with amount 0; with a contract
reference, the pivot rows matching the reference and surviving the
article exclusion list either are empty (one zero-amount not-found
record) or yield exactly the top 5 of them by summed amount descending,
each marked "Есть в выверке ВГО"; every queue record yields at least
one output record, so none is silently dropped.  The ledger pivot
itself contains no contribution from non-EXPENSE rows. -/
theorem ledger_search_amended (excl : List String) (pivot : List (VgoKey × ℚ))
    (errs : List ErrBe) (err : ErrBe) (hp : pivot ≠ []) :
    (searchOne excl pivot err ≠ [])
    ∧ (err.contract = "" → searchOne excl pivot err = [notFoundRec err])
    ∧ (err.contract ≠ "" →
        (((pivot.filter (fun e => e.1.refId == err.contract)).filter
            (fun e => !(excl.contains e.1.article))) = [] →
          searchOne excl pivot err = [notFoundRec err])
        ∧ (((pivot.filter (fun e => e.1.refId == err.contract)).filter
              (fun e => !(excl.contains e.1.article))) ≠ [] →
            searchOne excl pivot err
              = ((((pivot.filter (fun e => e.1.refId == err.contract)).filter
                    (fun e => !(excl.contains e.1.article))).insertionSort
                    (fun a b => b.2 ≤ a.2)).take 5).map (foundRec err)
            ∧ (searchOne excl pivot err).length
                = min 5 (((pivot.filter (fun e => e.1.refId == err.contract)).filter
                    (fun e => !(excl.contains e.1.article))).length)
            ∧ ∀ rr ∈ searchOne excl pivot err, rr.status = "Есть в выверке ВГО"))
    ∧ errs.length ≤ (searchInVgoPivot excl pivot errs).length
    ∧ (∀ rows : List VgoCells,
        createVgoPivotData (rows.filter (fun r => !(pyStr r.account == "EXPENSE"))) = []) := by
  refine ⟨searchOne_ne_nil excl pivot err, ?_, ?_, ?_, ?_⟩
  · intro h1
    unfold searchOne
    rw [if_pos h1]
  · intro h1
    constructor
    · intro hrem
      unfold searchOne
      rw [if_neg h1]
      dsimp only
      by_cases h2 : (pivot.filter (fun e => e.1.refId == err.contract)).isEmpty = true
      · rw [if_pos h2]
      · rw [if_neg h2, if_pos (by rw [List.isEmpty_iff]; exact hrem)]
    · intro hrem
      have h2 : ¬ (pivot.filter (fun e => e.1.refId == err.contract)).isEmpty = true := by
        rw [List.isEmpty_iff]
        intro he
        exact hrem (by rw [he]; rfl)
      have h3 : ¬ ((pivot.filter (fun e => e.1.refId == err.contract)).filter
          (fun e => !(excl.contains e.1.article))).isEmpty = true := by
        rw [List.isEmpty_iff]
        exact hrem
      have heq : searchOne excl pivot err
          = ((((pivot.filter (fun e => e.1.refId == err.contract)).filter
                (fun e => !(excl.contains e.1.article))).insertionSort
                (fun a b => b.2 ≤ a.2)).take 5).map (foundRec err) := by
        unfold searchOne
        rw [if_neg h1]
        dsimp only
        rw [if_neg h2, if_neg h3]
      refine ⟨heq, ?_, ?_⟩
      · rw [heq]
        rw [List.length_map, List.length_take]
        have hp2 := (List.perm_insertionSort (fun (a b : VgoKey × ℚ) => b.2 ≤ a.2)
          ((pivot.filter (fun e => e.1.refId == err.contract)).filter
            (fun e => !(excl.contains e.1.article)))).length_eq
        rw [hp2]
      · intro rr hrr
        rw [heq] at hrr
        rcases List.mem_map.mp hrr with ⟨e, _, he⟩
        rw [← he]
        rfl
  · unfold searchInVgoPivot
    rw [if_neg (by rw [List.isEmpty_iff]; exact hp)]
    exact length_le_flatMap _ errs (fun e _ => searchOne_ne_nil excl pivot e)
  · intro rows
    have hnil : (rows.filter (fun r => !(pyStr r.account == "EXPENSE"))).filter
        (fun r => pyStr r.account == "EXPENSE") = [] := by
      rw [List.filter_eq_nil_iff]
      intro a ha
      have hmem := List.of_mem_filter ha
      simp only [Bool.not_eq_true'] at hmem
      simp [hmem]
    unfold createVgoPivotData
    rw [hnil]
    rfl

/-- C5 witness (Scenario 2 shape): a queue record with contract "CT9"
and a matching non-excluded ledger entry of amount 200 yields at least
one output record, and the single queue record is not dropped. -/
theorem ledger_search_amended_witness :
    searchOne [] [(⟨"S3", "C3", "Art1", "CT9"⟩, 200)] ⟨"S3", "C3", "S3C3", "CT9", 6⟩ ≠ []
    ∧ ([⟨"S3", "C3", "S3C3", "CT9", 6⟩] : List ErrBe).length
        ≤ (searchInVgoPivot [] [(⟨"S3", "C3", "Art1", "CT9"⟩, 200)]
            [⟨"S3", "C3", "S3C3", "CT9", 6⟩]).length := by
  have h := ledger_search_amended [] [(⟨"S3", "C3", "Art1", "CT9"⟩, 200)]
    [⟨"S3", "C3", "S3C3", "CT9", 6⟩] ⟨"S3", "C3", "S3C3", "CT9", 6⟩ (by simp)
  exact ⟨h.1, h.2.2.2.1⟩

theorem splitAmp_no_amp : ∀ cs : List Char, '&' ∉ cs → splitAmp cs = [cs]
  | [], _ => rfl
  | c :: t, h => by
    have hc : ¬ c = '&' := fun e => h (e ▸ List.mem_cons_self c t)
    have ht : '&' ∉ t := fun m => h (List.mem_cons_of_mem c m)
    simp only [splitAmp, if_neg hc, splitAmp_no_amp t ht]

theorem splitAmp_append (a b : List Char) (ha : '&' ∉ a) :
    splitAmp (a ++ '&' :: b) = a :: splitAmp b := by
  induction a with
  | nil => simp [splitAmp]
  | cons c t ih =>
    have hc : ¬ c = '&' := fun e => ha (e ▸ List.mem_cons_self c t)
    have ht : '&' ∉ t := fun m => ha (List.mem_cons_of_mem c m)
    simp only [List.cons_append, splitAmp, if_neg hc, List.append_eq]
    rw [ih ht]

theorem evalParts_len_ne (grid : Nat → Nat → Value) (v : Value) :
    ∀ L : List (List Char), L.length ≠ 2 → evalParts grid v L = v
  | [], _ => rfl
  | [_], _ => rfl
  | [_, _], h => by simp at h
  | _ :: _ :: _ :: _, _ => rfl

/-- C8 (counterexample).  The claim fails on formulas that are not of
the exact shape `=REF1&REF2` but still get evaluated: the code removes
every "=" from the first part, so the malformed formula "=A=1&B2" is
evaluated to the concatenation of A1 and B2 instead of being kept. -/
theorem formula_evaluation_counterexample :
    isConcatShape "=A=1&B2" = false
    ∧ evalKeyCell
        (fun r c =>
          if r = 1 ∧ c = 1 then Value.str "x"
          else if r = 2 ∧ c = 2 then Value.str "y" else Value.none)
        (Value.str "=A=1&B2")
      = Value.str "xy"
    ∧ Value.str "xy" ≠ Value.str "=A=1&B2" := by
  refine ⟨by decide, by decide, by decide⟩

/-- C8 (amended).  Minimal formula evaluation: non-formula cells and
formulas with a number of "&"-separated parts different from two are
kept unchanged; a formula `=`++P1++`&`++P2 is evaluated to the
concatenation of the two referenced cells' string forms whenever P1 —
after removing every "=" character and stripping whitespace — and P2 —
after stripping whitespace — parse as single-cell references (this
covers the spec's `=REF1&REF2` shape but also malformed variants whose
"=" removal yields a reference), and is kept unchanged when either part
fails to parse; no other evaluation is attempted. -/
theorem formula_evaluation_amended :
    (∀ (grid : Nat → Nat → Value) (v : Value), isFormulaV v = false → evalKeyCell grid v = v)
    ∧ (∀ (grid : Nat → Nat → Value) (s : String), strStartsWithChar s '=' = true →
        (splitAmp s.toList).length ≠ 2 → evalKeyCell grid (Value.str s) = Value.str s)
    ∧ (∀ (grid : Nat → Nat → Value) (a b : List Char) (r1 r2 : Nat × Nat),
        '&' ∉ a → '&' ∉ b →
        parseCellRef (pyStripL (a.filter (fun c => !(c == '=')))) = Option.some r1 →
        parseCellRef (pyStripL b) = Option.some r2 →
        evalKeyCell grid (Value.str (String.mk ('=' :: (a ++ '&' :: b))))
          = Value.str (pyStr (grid r1.1 r1.2) ++ pyStr (grid r2.1 r2.2)))
    ∧ (∀ (grid : Nat → Nat → Value) (a b : List Char),
        '&' ∉ a → '&' ∉ b →
        (parseCellRef (pyStripL (a.filter (fun c => !(c == '=')))) = Option.none
          ∨ parseCellRef (pyStripL b) = Option.none) →
        evalKeyCell grid (Value.str (String.mk ('=' :: (a ++ '&' :: b))))
          = Value.str (String.mk ('=' :: (a ++ '&' :: b)))) := by
  have hsplit : ∀ a b : List Char, '&' ∉ a →
      splitAmp (String.mk ('=' :: (a ++ '&' :: b))).toList = ('=' :: a) :: splitAmp b := by
    intro a b ha
    have he : (String.mk ('=' :: (a ++ '&' :: b))).toList = ('=' :: a) ++ '&' :: b := by
      simp [String.toList]
    rw [he]
    refine splitAmp_append ('=' :: a) b ?_
    intro hm
    rcases List.mem_cons.mp hm with h | h
    · exact absurd h (by decide)
    · exact ha h
  have hfil : ∀ a : List Char,
      (('=' :: a).filter (fun c => !(c == '='))) = a.filter (fun c => !(c == '=')) := by
    intro a
    simp [List.filter_cons]
  refine ⟨?_, ?_, ?_, ?_⟩
  · intro grid v h
    cases v with
    | none => rfl
    | num q => rfl
    | str s =>
      simp only [isFormulaV] at h
      simp only [evalKeyCell, h, Bool.false_eq_true, if_false]
  · intro grid s hs hlen
    simp only [evalKeyCell, hs, if_true]
    exact evalParts_len_ne grid _ _ hlen
  · intro grid a b r1 r2 ha hb hp1 hp2
    simp only [evalKeyCell]
    rw [if_pos (show strStartsWithChar (String.mk ('=' :: (a ++ '&' :: b))) '=' = true from rfl)]
    rw [hsplit a b ha, splitAmp_no_amp b hb]
    simp only [evalParts]
    rw [hfil a, hp1, hp2]
  · intro grid a b ha hb hfail
    simp only [evalKeyCell]
    rw [if_pos (show strStartsWithChar (String.mk ('=' :: (a ++ '&' :: b))) '=' = true from rfl)]
    rw [hsplit a b ha, splitAmp_no_amp b hb]
    simp only [evalParts]
    rcases hfail with hf | hf
    · rw [hfil a, hf]
    · rcases hq : parseCellRef (pyStripL (('=' :: a).filter (fun c => !(c == '=')))) with _ | r1
      · rfl
      · rw [hf]

/-- C8 witness: the canonical shape `=A1&B2` is evaluated to the
concatenation of the two referenced cells' string forms. -/
theorem formula_evaluation_amended_witness :
    evalKeyCell (fun r c => if r = 1 ∧ c = 1 then Value.str "x" else Value.none)
        (Value.str (String.mk ('=' :: (['A', '1'] ++ '&' :: ['B', '2']))))
      = Value.str
          (pyStr ((fun r c => if r = 1 ∧ c = 1 then Value.str "x" else Value.none) 1 1)
            ++ pyStr ((fun r c => if r = 1 ∧ c = 1 then Value.str "x" else Value.none) 2 2)) :=
  formula_evaluation_amended.2.2.1
    (fun r c => if r = 1 ∧ c = 1 then Value.str "x" else Value.none)
    ['A', '1'] ['B', '2'] (1, 1) (2, 2) (by decide) (by decide) (by decide) (by decide)

theorem pairwise_trueRel {α : Type} : ∀ l : List α, l.Pairwise trueRel
  | [] => List.Pairwise.nil
  | _ :: t => List.Pairwise.cons (fun _ _ => trivial) (pairwise_trueRel t)

theorem pairwise_lexPair_orderedInsert {α : Type} (le₁ : α → α → Prop) [DecidableRel le₁]
    (total : ∀ a b, le₁ a b ∨ le₁ b a) (htrans : ∀ a b c, le₁ a b → le₁ b c → le₁ a c)
    (r₂ : α → α → Prop) (a : α) :
    ∀ L : List α, L.Pairwise (lexPair le₁ r₂) → (∀ b ∈ L, r₂ a b) →
      (L.orderedInsert le₁ a).Pairwise (lexPair le₁ r₂)
  | [], _, _ => by simp [List.orderedInsert, lexPair]
  | b :: L, hP, hA => by
    by_cases h : le₁ a b
    · rw [List.orderedInsert, if_pos h]
      refine List.Pairwise.cons ?_ hP
      intro c hc
      have hac : le₁ a c := by
        rcases List.mem_cons.mp hc with h1 | h1
        · exact h1 ▸ h
        · have hbc : le₁ b c := by
            have h2 := (List.pairwise_cons.mp hP).1 c h1
            rcases h2 with ⟨h3, _⟩ | ⟨h3, _, _⟩ <;> exact h3
          exact htrans a b c h hbc
      by_cases hca : le₁ c a
      · exact Or.inr ⟨hac, hca, hA c hc⟩
      · exact Or.inl ⟨hac, hca⟩
    · rw [List.orderedInsert, if_neg h]
      rw [List.pairwise_cons] at hP
      rw [List.pairwise_cons]
      refine ⟨?_, ?_⟩
      · intro c hc
        rcases (List.mem_orderedInsert le₁).mp hc with h1 | h1
        · rw [h1]
          rcases total a b with h2 | h2
          · exact absurd h2 h
          · exact Or.inl ⟨h2, h⟩
        · exact hP.1 c h1
      · exact pairwise_lexPair_orderedInsert le₁ total htrans r₂ a L hP.2
          (fun c hc => hA c (List.mem_cons_of_mem _ hc))

theorem pairwise_lexPair_insertionSort {α : Type} (le₁ : α → α → Prop) [DecidableRel le₁]
    (total : ∀ a b, le₁ a b ∨ le₁ b a) (htrans : ∀ a b c, le₁ a b → le₁ b c → le₁ a c)
    (r₂ : α → α → Prop) :
    ∀ l : List α, l.Pairwise r₂ → (l.insertionSort le₁).Pairwise (lexPair le₁ r₂)
  | [], _ => by simp [List.insertionSort]
  | a :: l, h => by
    rw [List.insertionSort]
    rcases List.pairwise_cons.mp h with ⟨hA, hP⟩
    refine pairwise_lexPair_orderedInsert le₁ total htrans r₂ a _
      (pairwise_lexPair_insertionSort le₁ total htrans r₂ l hP) ?_
    intro b hb
    exact hA b ((List.perm_insertionSort le₁ l).mem_iff.mp hb)

theorem budgetOpexRowsFor_pair_eq {mapping : List OpexMapItem} {q : (String × String) × ℚ}
    {r : OpexRow} (h : r ∈ budgetOpexRowsFor mapping q) :
    (r.be_supplier, r.be_buyer) = q.1 := by
  rcases List.mem_map.mp h with ⟨m, _, he⟩
  rw [← he]
  rcases q with ⟨⟨s, bw⟩, v⟩
  rfl

theorem mem_budgetOpexRowsRaw {pivot : List PivotVal} {mapping : List OpexMapItem} {r : OpexRow}
    (h : r ∈ budgetOpexRowsRaw pivot mapping) :
    ∃ p ∈ sumByKey pivot, p.1.1 ≠ "Общий итог" ∧ ∃ m ∈ mapping,
      m.be_supplier = p.1.1 ∧ m.cfo_oper ≠ "" ∧ r = mkBudgetOpexRow p m := by
  rcases List.mem_flatMap.mp h with ⟨p, hp, hr⟩
  by_cases hoi : p.1.1 = "Общий итог"
  · rw [if_pos hoi] at hr
    simp at hr
  · rw [if_neg hoi] at hr
    rcases List.mem_map.mp hr with ⟨m, hm, he⟩
    have hm2 := List.mem_filter.mp hm
    have hm3 := List.mem_filter.mp hm2.1
    refine ⟨p, hp, hoi, m, hm3.1, ?_, ?_, he.symm⟩
    · have := hm3.2
      simpa using this
    · have := hm2.2
      simpa using this

theorem sumByKey_val {pivot : List PivotVal} {p : (String × String) × ℚ}
    (hp : p ∈ sumByKey pivot) :
    p.2 = ((pivot.filter (fun v => decide ((v.be_supplier, v.be_buyer) = p.1))).map
      PivotVal.sum).sum := by
  have hn := groupSum_keys_nodup (fun v : PivotVal => (v.be_supplier, v.be_buyer))
    PivotVal.sum pivot
  have he := lookupD_of_mem_nodup hp hn 0
  rw [← he]
  exact groupSum_lookupD _ _ _ _

theorem flatMap_pair_filter_length (mapping : List OpexMapItem) :
    ∀ groups : List ((String × String) × ℚ), (groups.map Prod.fst).Nodup →
      ∀ p ∈ groups, p.1.1 ≠ "Общий итог" →
        ((groups.flatMap (fun q =>
            if q.1.1 = "Общий итог" then [] else budgetOpexRowsFor mapping q)).filter
              (fun r => (r.be_supplier, r.be_buyer) == p.1)).length
          = (budgetOpexRowsFor mapping p).length
  | [], _, p, hp, _ => by simp at hp
  | q :: rest, hnd, p, hp, hpo => by
    simp only [List.flatMap_cons, List.filter_append, List.length_append]
    simp only [List.map_cons, List.nodup_cons] at hnd
    rcases List.mem_cons.mp hp with hq | hq
    · rw [← hq] at hnd ⊢
      rw [if_neg hpo]
      have hall : (budgetOpexRowsFor mapping p).filter
          (fun r => (r.be_supplier, r.be_buyer) == p.1) = budgetOpexRowsFor mapping p := by
        rw [List.filter_eq_self]
        intro r hr
        simpa using budgetOpexRowsFor_pair_eq hr
      rw [hall]
      have hrest : ((rest.flatMap (fun q =>
          if q.1.1 = "Общий итог" then [] else budgetOpexRowsFor mapping q)).filter
            (fun r => (r.be_supplier, r.be_buyer) == p.1)) = [] := by
        rw [List.filter_eq_nil_iff]
        intro r hr
        rcases List.mem_flatMap.mp hr with ⟨q', hq', hrq⟩
        by_cases hoi : q'.1.1 = "Общий итог"
        · rw [if_pos hoi] at hrq
          simp at hrq
        · rw [if_neg hoi] at hrq
          have hpair := budgetOpexRowsFor_pair_eq hrq
          have hne : q'.1 ≠ p.1 := by
            intro he
            exact hnd.1 (he ▸ List.mem_map_of_mem Prod.fst hq')
          simp only [beq_iff_eq, hpair]
          exact hne
      rw [hrest]
      simp
    · have hne : q.1 ≠ p.1 := by
        intro he
        exact hnd.1 (he ▸ List.mem_map_of_mem Prod.fst hq)
      have hseg : ((if q.1.1 = "Общий итог" then [] else budgetOpexRowsFor mapping q).filter
          (fun r => (r.be_supplier, r.be_buyer) == p.1)) = [] := by
        by_cases hoi : q.1.1 = "Общий итог"
        · rw [if_pos hoi]
          rfl
        · rw [if_neg hoi]
          rw [List.filter_eq_nil_iff]
          intro r hr
          have hpair := budgetOpexRowsFor_pair_eq hr
          simp only [beq_iff_eq, hpair]
          exact hne
      rw [hseg]
      simp only [List.length_nil, Nat.zero_add]
      exact flatMap_pair_filter_length mapping rest hnd.2 p hq hpo

/-- C7 (counterexample).  The claim fails for OPEX mapping records with
an empty operational cost-center: here the mapping holds exactly one
record for supplier "S1", yet the block emits no row at all, because the
code skips records whose operational cost-center is empty. -/
theorem budget_opex_block_counterexample :
    (([⟨"S1", "", "A1", 50⟩] : List OpexMapItem).filter
        (fun m => m.be_supplier == "S1")).length = 1
    ∧ (budgetOpexSorted [⟨"S1", "C1", "B1", 1000⟩] [⟨"S1", "", "A1", 50⟩]).length = 0 := by
  constructor
  · decide
  · simp [budgetOpexSorted, budgetOpexRowsRaw, sumByKey, groupSum, upsertAdd,
      budgetOpexRowsFor, List.insertionSort]

/-- C7 (amended).  Budget OPEX mapping block: the written block is a
permutation of the generated rows — for every distinct
(supplier, buyer) pair of the pivot other than "Общий итог", one row per
OPEX mapping record sharing the supplier code *whose operational
cost-center is non-empty* (records with an empty operational cost-center
are skipped); each row's stored pair sum is the sum of the pivot amounts
of its (supplier, buyer) pair and its amount is that sum times the
normalized percent over 100; the rows are sorted by supplier unit
descending, then buyer unit, operational cost-center and operational
article ascending.  On Scenario 1's input the block is exactly one row
of amount 1000 × 50/100 = 500 and its Check evaluates to 500. -/
theorem budget_opex_block_amended (pivot : List PivotVal) (mapping : List OpexMapItem) :
    ((budgetOpexSorted pivot mapping).Perm (budgetOpexRowsRaw pivot mapping))
    ∧ (∀ r ∈ budgetOpexSorted pivot mapping,
        r.sum_acc = ((pivot.filter (fun v =>
            decide (v.be_supplier = r.be_supplier ∧ v.be_buyer = r.be_buyer))).map
          PivotVal.sum).sum
        ∧ r.sum = r.sum_acc * (r.percent : ℚ) / 100
        ∧ ∃ m ∈ mapping, m.be_supplier = r.be_supplier ∧ m.cfo_oper = r.cfo_oper
            ∧ m.cfo_oper ≠ "" ∧ m.stat_oper = r.stat_oper
            ∧ r.percent = budgetPercentWeight m.percent)
    ∧ (∀ p ∈ sumByKey pivot, p.1.1 ≠ "Общий итог" →
        ((budgetOpexSorted pivot mapping).filter
            (fun r => (r.be_supplier, r.be_buyer) == p.1)).length
          = ((mapping.filter (fun m => m.be_supplier == p.1.1)).filter
              (fun m => !(m.cfo_oper == ""))).length)
    ∧ (budgetOpexSorted pivot mapping).Pairwise opexOrder
    ∧ budgetOpexSorted [⟨"S1", "C1", "B1", 1000⟩, ⟨"S2", "C2", "B2", 500⟩]
          [⟨"S1", "OP1", "A1", 50⟩]
        = [⟨"S1OP1", "S1", "OP1", "A1", 50, 500, 1000, "B1"⟩]
    ∧ checkValue (budgetOpexBlock 20 [⟨"S1", "C1", "B1", 1000⟩, ⟨"S2", "C2", "B2", 500⟩]
          [⟨"S1", "OP1", "A1", 50⟩]) = 500 := by
  have hperm : (budgetOpexSorted pivot mapping).Perm (budgetOpexRowsRaw pivot mapping) := by
    unfold budgetOpexSorted
    exact (List.perm_insertionSort _ _).trans ((List.perm_insertionSort _ _).trans
      ((List.perm_insertionSort _ _).trans (List.perm_insertionSort _ _)))
  have h50 : pyRound (50 : ℚ) = 50 := by
    unfold pyRound
    norm_num
  have hscen : budgetOpexSorted [⟨"S1", "C1", "B1", 1000⟩, ⟨"S2", "C2", "B2", 500⟩]
      [⟨"S1", "OP1", "A1", 50⟩] = [⟨"S1OP1", "S1", "OP1", "A1", 50, 500, 1000, "B1"⟩] := by
    simp only [budgetOpexSorted, budgetOpexRowsRaw, sumByKey, groupSum, List.foldl_cons,
      List.foldl_nil, upsertAdd, budgetOpexRowsFor, mkBudgetOpexRow, budgetPercentWeight, h50]
    norm_num [List.insertionSort, List.filter, mkBudgetOpexRow, budgetPercentWeight, h50]
    rfl
  refine ⟨hperm, ?_, ?_, ?_, hscen, ?_⟩
  · intro r hr
    have hraw : r ∈ budgetOpexRowsRaw pivot mapping := hperm.mem_iff.mp hr
    rcases mem_budgetOpexRowsRaw hraw with ⟨p, hp, _, m, hm, hsup, hcfo, he⟩
    subst he
    refine ⟨?_, rfl, m, hm, hsup.symm ▸ rfl, rfl, hcfo, rfl, rfl⟩
    have hval := sumByKey_val hp
    have hc : pivot.filter (fun v => decide ((v.be_supplier, v.be_buyer) = p.1))
        = pivot.filter (fun v =>
            decide (v.be_supplier = (mkBudgetOpexRow p m).be_supplier
              ∧ v.be_buyer = (mkBudgetOpexRow p m).be_buyer)) := by
      apply List.filter_congr
      intro v _
      apply decide_eq_decide.mpr
      rcases p with ⟨⟨s, bw⟩, q2⟩
      simp [Prod.ext_iff, mkBudgetOpexRow]
    rw [← hc]
    exact hval
  · intro p hp hpo
    have h1 := (hperm.filter (fun r => (r.be_supplier, r.be_buyer) == p.1)).length_eq
    rw [h1]
    have h2 := flatMap_pair_filter_length mapping (sumByKey pivot)
      (groupSum_keys_nodup _ _ _) p hp hpo
    have h3 : budgetOpexRowsRaw pivot mapping
        = (sumByKey pivot).flatMap (fun q =>
            if q.1.1 = "Общий итог" then [] else budgetOpexRowsFor mapping q) := rfl
    rw [h3, h2]
    simp [budgetOpexRowsFor]
  · unfold budgetOpexSorted opexOrder
    refine pairwise_lexPair_insertionSort
      (fun a b : OpexRow => b.be_supplier ≤ a.be_supplier)
      (fun a b => le_total _ _) (fun a b c hab hbc => le_trans hbc hab)
      (lexPair (fun a b : OpexRow => a.be_buyer ≤ b.be_buyer)
        (lexPair (fun a b : OpexRow => a.cfo_oper ≤ b.cfo_oper)
          (lexPair (fun a b : OpexRow => a.stat_oper ≤ b.stat_oper) trueRel))) _ ?_
    refine pairwise_lexPair_insertionSort
      (fun a b : OpexRow => a.be_buyer ≤ b.be_buyer)
      (fun a b => le_total _ _) (fun a b c hab hbc => le_trans hab hbc)
      (lexPair (fun a b : OpexRow => a.cfo_oper ≤ b.cfo_oper)
        (lexPair (fun a b : OpexRow => a.stat_oper ≤ b.stat_oper) trueRel)) _ ?_
    refine pairwise_lexPair_insertionSort
      (fun a b : OpexRow => a.cfo_oper ≤ b.cfo_oper)
      (fun a b => le_total _ _) (fun a b c hab hbc => le_trans hab hbc)
      (lexPair (fun a b : OpexRow => a.stat_oper ≤ b.stat_oper) trueRel) _ ?_
    exact pairwise_lexPair_insertionSort
      (fun a b : OpexRow => a.stat_oper ≤ b.stat_oper)
      (fun a b => le_total _ _) (fun a b c hab hbc => le_trans hab hbc)
      trueRel _ (pairwise_trueRel _)
  · have hrows : (budgetOpexBlock 20 [⟨"S1", "C1", "B1", 1000⟩, ⟨"S2", "C2", "B2", 500⟩]
        [⟨"S1", "OP1", "A1", 50⟩]).rows = [(21, (500 : ℚ))] := by
      simp only [budgetOpexBlock, hscen]
      rfl
    have hlen : (budgetOpexSorted [⟨"S1", "C1", "B1", 1000⟩, ⟨"S2", "C2", "B2", 500⟩]
        [⟨"S1", "OP1", "A1", 50⟩]).length = 1 := by rw [hscen]; rfl
    have hcv := checkValue_sumFormula_all
      (budgetOpexBlock 20 [⟨"S1", "C1", "B1", 1000⟩, ⟨"S2", "C2", "B2", 500⟩]
        [⟨"S1", "OP1", "A1", 50⟩]) 12 21 21 (by
          show CheckCell.sumFormula 12 (20 + 1) (20 + _) = CheckCell.sumFormula 12 21 21
          rw [hlen])
      (by
        intro q hq
        rw [hrows] at hq
        rcases List.mem_cons.mp hq with h | h
        · rw [h]
          exact ⟨le_refl 21, le_refl 21⟩
        · simp at h)
    rw [hcv]
    show ((budgetOpexBlock 20 [⟨"S1", "C1", "B1", 1000⟩, ⟨"S2", "C2", "B2", 500⟩]
      [⟨"S1", "OP1", "A1", 50⟩]).rows.map Prod.snd).sum = 500
    rw [hrows]
    simp

/-- C7 witness: on Scenario 1's input, the pair ("S1", "B1") gets
exactly as many block rows as there are valid mapping records for
supplier "S1". -/
theorem budget_opex_block_amended_witness :
    ((budgetOpexSorted [⟨"S1", "C1", "B1", 1000⟩, ⟨"S2", "C2", "B2", 500⟩]
        [⟨"S1", "OP1", "A1", 50⟩]).filter
          (fun r => (r.be_supplier, r.be_buyer) == (("S1", "B1") : String × String))).length
      = ((([⟨"S1", "OP1", "A1", 50⟩] : List OpexMapItem).filter
            (fun m => m.be_supplier == "S1")).filter (fun m => !(m.cfo_oper == ""))).length :=
  (budget_opex_block_amended [⟨"S1", "C1", "B1", 1000⟩, ⟨"S2", "C2", "B2", 500⟩]
      [⟨"S1", "OP1", "A1", 50⟩]).2.2.1 (("S1", "B1"), 1000) (by decide) (by decide)
